import Mathlib

/-!
Verification of the UNESCO scraper (`src/unesco.py`) against its
natural-language specification.

The Python source is shallowly embedded: pandas data frames become
association lists of named columns of optional string cells (`none`
models a missing value / NaN), Python exceptions become `Option`/`Except`
results, and the stateful chunking loop of
`generate_dataset_and_showcase` becomes an explicit recursion over the
descending year list.
-/

namespace Unesco

/-! ## Python string primitives -/

/-- Python `str.split(sep)` for a one-character separator.
`pySplit ':' "a:b"` is `["a","b"]`, `pySplit ':' ""` is `[""]`
(on `List Char`).  The `[]` branch of the inner match is unreachable:
`pySplit` never returns the empty list. -/
def pySplit (sep : Char) : List Char → List (List Char)
  | [] => [[]]
  | c :: rest =>
    match pySplit sep rest with
    | [] => [[c]]
    | h :: t => if c = sep then [] :: h :: t else (c :: h) :: t

/-- Python `sep.join(parts)` for a one-character separator (on `List Char`). -/
def pyJoin (sep : Char) : List (List Char) → List Char
  | [] => []
  | [x] => x
  | x :: y :: t => x ++ sep :: pyJoin sep (y :: t)

/-- `":".join(x.split(":")[1:])` from `split_columns_df`: everything after
the first colon (empty when the cell has no colon). -/
def splitLabel (s : String) : String := ⟨pyJoin ':' ((pySplit ':' s.data).drop 1)⟩

/-- `x.split(":")[0]` from `split_columns_df`: the content before the first
colon (the whole cell when it has no colon). -/
def splitCode (s : String) : String := ⟨(pySplit ':' s.data).headD []⟩

/-- Python `needle in haystack` substring test. -/
def pyContains (needle haystack : String) : Bool :=
  haystack.data.tails.any (fun t => needle.data.isPrefixOf t)

/-- Python `str.lower()` (character-wise, as for the ASCII slugs the
scraper lowercases). -/
def pyLower (s : String) : String := ⟨s.data.map Char.toLower⟩

/-- Python `str.strip()`: drop whitespace from both ends. -/
def pyStrip (s : String) : String :=
  ⟨((s.data.dropWhile Char.isWhitespace).reverse.dropWhile Char.isWhitespace).reverse⟩

/-- Python `str.replace(a, b)` for one-character pattern and
replacement (the scraper only replaces `" "` by `"-"`). -/
def pyReplace1 (s : String) (a b : Char) : String :=
  ⟨s.data.map (fun c => if c = a then b else c)⟩

/-- Replace the first `"%s"` of a format string (`tmpl % arg` for the
templates built by `get_endpoints_metadata`, which hold exactly one
`%s` and no other directive). -/
def formatSAux (arg : List Char) : List Char → List Char
  | '%' :: 's' :: rest => arg ++ rest
  | c :: rest => c :: formatSAux arg rest
  | [] => []

/-- Lexicographic code-point comparison of strings, Python's `<=` used
by `sorted`. -/
def charListLe : List Char → List Char → Bool
  | [], _ => true
  | _ :: _, [] => false
  | a :: as, b :: bs => if a < b then true else if b < a then false else charListLe as bs

def keyLe (a b : String) : Bool := charListLe a.data b.data

/-! ## The data-frame model -/

/-- One table cell: `none` models a missing value (NaN). -/
abbrev Cell : Type := Option String

/-- A pandas data frame: named columns, each an ordered list of cells. -/
structure DF where
  cols : List (String × List Cell)
deriving DecidableEq

def DF.names (df : DF) : List String := df.cols.map Prod.fst

/-- `df[c]`: the cells of column `c` (`none` when absent). -/
def DF.getCol (df : DF) (c : String) : Option (List Cell) :=
  (df.cols.find? (fun p => p.1 = c)).map Prod.snd

/-- Number of rows: the common column length for a well-formed frame. -/
def DF.nrows (df : DF) : Nat := (df.cols.map (fun p => p.2.length)).foldr max 0

/-- `df[c] = vs`: overwrite column `c` when present, else append it. -/
def dfSetCol (df : DF) (c : String) (vs : List Cell) : DF :=
  if df.names.contains c then
    ⟨df.cols.map (fun p => if p.1 = c then (c, vs) else p)⟩
  else ⟨df.cols ++ [(c, vs)]⟩

/-- `a.append(b)` (pandas): align columns by name — `a`'s columns first,
then `b`'s new ones — filling the missing side of each column with NaN. -/
def dfAppend (a b : DF) : DF :=
  let na := a.nrows
  let nb := b.nrows
  let aCols := a.cols.map (fun p =>
    (p.1, p.2 ++ (match b.getCol p.1 with
                  | some vs => vs
                  | none => List.replicate nb (none : Cell))))
  let bNew := (b.cols.filter (fun p => !(a.names.contains p.1))).map (fun p =>
    (p.1, List.replicate na (none : Cell) ++ p.2))
  ⟨aCols ++ bNew⟩

/-- `df.drop(columns=c)`: `none` models the `KeyError` raised when no
column is named `c`. -/
def dropColumn (df : DF) (c : String) : Option DF :=
  if df.names.contains c then some ⟨df.cols.filter (fun p => p.1 ≠ c)⟩
  else none

/-! ## `split_columns_df` -/

/-- The fixed list of splittable dimension-column names from the
triple-quoted literal in `split_columns_df` (after its `strip`/empty-line
filtering, which is constant). -/
def known_split_columns : List String :=
  ["Age", "Country / region of origin", "Destination region",
   "Field of education", "Funding flow", "Grade", "Immigration status",
   "Infrastructure", "Level of education", "Level of educational attainment",
   "Location", "Orientation", "Reference area", "School subject", "Sex",
   "Socioeconomic background", "Source of funding", "Statistical unit",
   "Teaching experience", "Time Period", "Type of contract",
   "Type of education", "Type of expenditure", "Type of institution",
   "Unit of measure", "Wealth quintile"]

/-- Apply a string transform to every cell of a column; a missing value
(`none`) makes the whole operation fail, mirroring the `AttributeError`
Python raises when `x.split` is taken on a NaN float. -/
def mapCells (f : String → String) (vs : List Cell) : Option (List Cell) :=
  vs.mapM (fun x => match x with
    | some s => some (some (f s))
    | none => none)

/-- `split_columns_df(df, code_column_postfix=" code", store_code=False)`:
for each known splittable column present in `df`, replace its cells by the
part after the first colon and, when `store` is set, add a sibling
`"<name> code"` column holding the part before the first colon; all other
columns pass through afterwards in their original order. -/
def split_columns_df (df : DF) (code_column_suffix : String := " code")
    (store : Bool := false) : Option DF := do
  let split_columns := known_split_columns.filter (fun x => df.names.contains x)
  let newCols ← split_columns.mapM (fun c => do
    let vs ← df.getCol c
    let labels ← mapCells splitLabel vs
    if store then
      let codes ← mapCells splitCode vs
      pure [(c, labels), (c ++ code_column_suffix, codes)]
    else
      pure [(c, labels)])
  let rest := df.cols.filter (fun p => !(split_columns.contains p.1))
  pure ⟨newCols.flatten ++ rest⟩

/-! ## `expand_time_columns_df` and the value filter of `process_df` -/

/-- Python `str(y).isdigit()` on a column name. -/
def isYearName (s : String) : Bool := s.length != 0 && s.data.all Char.isDigit

/-- `expand_time_columns_df(df, time_column="Time Period", value_column="Value")`:
keep the non-digit-named columns, and for every digit-named (year) column
append one block of rows carrying that year's label into `time_column` and
its cells into `value_column`. -/
def expand_time_columns_df (df : DF) (time_column : String := "Time Period")
    (value_column : String := "Value") : DF :=
  let year_columns := df.cols.filter (fun p => isYearName p.1)
  let copy_cols := df.cols.filter (fun p => !(isYearName p.1))
  let base : DF := ⟨copy_cols.map (fun p => (p.1, ([] : List Cell))) ++
                    [(time_column, []), (value_column, [])]⟩
  year_columns.foldl (fun acc p =>
    let dfblock := dfSetCol (dfSetCol ⟨copy_cols⟩ time_column
      (List.replicate df.nrows (some p.1))) value_column p.2
    dfAppend acc dfblock) base

/-- The row-keeping predicate of `process_df`:
`~(df[value].isna() | len(str(x).strip()) == 0)`. -/
def keepCell : Cell → Bool
  | none => false
  | some s => !(pyStrip s == "")

/-- Restrict a list of cells to the rows whose mask entry is `true`. -/
def maskFilter (mask : List Bool) (vs : List Cell) : List Cell :=
  ((vs.zip mask).filter (fun q => q.2)).map Prod.fst

/-- `df.loc[index]` for the boolean mask computed from the value column. -/
def filterByValue (df : DF) (value_column : String) : DF :=
  let mask := ((df.getCol value_column).getD []).map keepCell
  ⟨df.cols.map (fun p => (p.1, maskFilter mask p.2))⟩

/-- `process_df`: drop the `"Time Period"` code column, split the known
compound columns, expand the year columns to long form, and keep only the
rows with a non-missing, non-blank value.  `none` models the `KeyError`
from the unconditional drop and the `AttributeError` from splitting a
missing cell. -/
def process_df (df : DF) (code_column_suffix : String := " code")
    (store : Bool := false) (time_column : String := "Time Period")
    (value_column : String := "Value") : Option DF := do
  let df1 ← dropColumn df "Time Period"
  let df2 ← split_columns_df df1 code_column_suffix store
  let df3 := expand_time_columns_df df2 time_column value_column
  pure (filterByValue df3 value_column)

/-- Count of non-missing, non-blank cells in the year columns of a wide
frame (the quantity §8 of the spec compares the filtered row count to). -/
def nonEmptyCellCount (df : DF) : Nat :=
  ((df.cols.filter (fun p => isYearName p.1)).map
    (fun p => p.2.countP keepCell)).sum

/-! ## The year-chunking loop -/

/-- The module-level observation ceiling. -/
def MAX_OBSERVATIONS : Nat := 1800

/-- The chunk-emitting loop of `generate_dataset_and_showcase`
(lines 230-247), with the per-chunk side effect (`download_df` /
`create_resource`) abstracted into the returned list of
`(start_year, end_year)` pairs, in emission order.  State: the running
`obs_count`, and the loop variables `start_year` and `end_year` read by
the closures at emission time. -/
def chunkAux (k : Nat → Nat) : List Nat → Nat → Nat → Nat → List (Nat × Nat)
  | [], _, _, _ => []
  | y :: rest, obs_count, start_year, end_year =>
    if obs_count + k y < MAX_OBSERVATIONS then
      chunkAux k rest (obs_count + k y) y end_year
    else
      (start_year, end_year) :: chunkAux k rest (k y) start_year y

/-- All chunks emitted for the descending year list `years` with
observation counts `k`; the code initializes `end_year = years[0]`,
`start_year = end_year` and `obs_count = 0` before the loop. -/
def chunks (k : Nat → Nat) (years : List Nat) : List (Nat × Nat) :=
  match years with
  | [] => []
  | y0 :: _ => chunkAux k years 0 y0 y0

/-- Sum of the observation counts of the years of `years` that lie in the
inclusive range `[s, e]` (the quantity bounded by the `YearChunk`
invariant). -/
def rangeSum (k : Nat → Nat) (years : List Nat) (s e : Nat) : Nat :=
  ((years.filter (fun y => s ≤ y && y ≤ e)).map k).sum

/-! ## The retry wrapper `load_safely` -/

/-- One attempt of `downloader.download(url)`: a successful response
(identified by an abstract id), or an exception whose flag records
whether it is a `DownloadError` (only those are caught) and whose string
is `str(val.__cause__)`. -/
inductive DlAttempt where
  | ok (resp : Nat)
  | err (isDownloadError : Bool) (cause : String)
deriving DecidableEq, Repr

/-- How a `load_safely(url)` call ends: a response, the `None` sentinel
(not-found), a propagated exception carrying the original classification
and cause unchanged (`reraise(*exc_info)` also keeps the traceback, which
is outside this embedding), or never (the unbounded quota-retry loop ran
out of scripted attempts while still retrying). -/
inductive FetchOutcome where
  | got (resp : Nat)
  | noData
  | raised (isDownloadError : Bool) (cause : String)
  | looping
deriving DecidableEq, Repr

/-- `load_safely` (lines 165-181) over a scripted list of attempt results
for the one URL it retries; the second component accumulates the seconds
slept (`time.sleep(60)` per quota-exceeded attempt). -/
def load_safely : List DlAttempt → FetchOutcome × Nat
  | [] => (.looping, 0)
  | .ok r :: _ => (.got r, 0)
  | .err isDE cause :: rest =>
    if isDE then
      if pyContains "Quota Exceeded" cause then
        let p := load_safely rest
        (p.1, 60 + p.2)
      else if pyContains "Not Found" cause then (.noData, 0)
      else (.raised isDE cause, 0)
    else (.raised isDE cause, 0)

/-! ## `get_endpoints_metadata` -/

/-- An observation dimension from the decoded structure JSON: its `id`
and, for `TIME_PERIOD`, the `(int(value['id']), value['actualObs'])`
pairs (year ids are modelled already parsed to numbers). -/
structure ObsDim where
  id : String
  values : List (Nat × Nat)
deriving DecidableEq, Repr

/-- The part of the structure-metadata JSON the scraper reads:
`json['structure']['name']` and
`json['structure']['dimensions']['observation']`. -/
structure SdmxStructure where
  name : String
  observation : List ObsDim
deriving DecidableEq, Repr

def dataurl_suffix : String :=
  "format=sdmx-json&detail=structureonly&includeMetrics=true"

/-- Python's `sorted` over a mapping iterates its keys in ascending
lexicographic order; we model the mapping as an association list and sort
it by key with a stable insertion sort. -/
def sortByKey {β : Type} (l : List (String × β)) : List (String × β) :=
  List.insertionSort (fun a b => keyLe a.1 b.1 = true) l

/-- `get_endpoints_metadata(base_url, downloader, endpoints)`: for each
endpoint id in sorted order, fetch its structure document (`fetchJson`
abstracts `downloader.download(...).json()`) and build the URL template:
the base data URL, one segment per observation dimension (`"%s"` for
`REF_AREA`, `"."` otherwise), terminated by `"?"`. -/
def get_endpoints_metadata (base_url : String) (fetchJson : String → SdmxStructure)
    (endpoints : List (String × String)) : List (String × String × String × String) :=
  (sortByKey endpoints).map (fun ep =>
    let base_dataurl := base_url ++ "data/UNESCO," ++ ep.1 ++ "/"
    let json := fetchJson (base_dataurl ++ "?" ++ dataurl_suffix)
    let urllist := [base_dataurl] ++
      (json.observation.map (fun d => if d.id = "REF_AREA" then "%s" else ".")) ++ ["?"]
    (ep.1, json.name, String.join urllist, ep.2))

/-! ## `generate_dataset_and_showcase` -/

/-- `time_periods[key] = v` on a Python dict modelled as an association
list: overwrite the key when present, otherwise append it. -/
def dictInsert (m : List (Nat × Nat)) (key v : Nat) : List (Nat × Nat) :=
  if m.any (fun p => p.1 = key) then
    m.map (fun p => if p.1 = key then (key, v) else p)
  else m ++ [(key, v)]

/-- The `time_periods` dict built from the observation dimensions
(lines 190-194). -/
def timePeriodsOf (observations : List ObsDim) : List (Nat × Nat) :=
  observations.foldl (fun m o =>
    if o.id = "TIME_PERIOD" then
      o.values.foldl (fun m2 v => dictInsert m2 v.1 v.2) m
    else m) []

/-- `sorted(time_periods.keys(), reverse=True)`. -/
def yearsDesc (time_periods : List (Nat × Nat)) : List Nat :=
  List.insertionSort (fun a b => b ≤ a) (time_periods.map Prod.fst)

/-- `time_periods[y]` for the chunking loop; the loop only looks up keys
of the dict, so the `0` default is never read. -/
def dictGet (m : List (Nat × Nat)) (y : Nat) : Nat :=
  ((m.find? (fun p => p.1 = y)).map Prod.snd).getD 0

/-- A dataset resource: a direct CSV link (split mode, `create_resource`)
or an uploaded file (merge mode). -/
inductive ResSpec where
  | link (name description format url : String)
  | file (name description format path : String)
deriving DecidableEq, Repr

def resName : ResSpec → String
  | .link n _ _ _ => n
  | .file n _ _ _ => n

/-- HDX `dataset.add_update_resource`: replace the resource with the same
name when one exists, otherwise append. -/
def add_update_resource (rs : List ResSpec) (r : ResSpec) : List ResSpec :=
  if rs.any (fun x => resName x = resName r) then
    rs.map (fun x => if resName x = resName r then r else x)
  else rs ++ [r]

/-- Ways `generate_dataset_and_showcase` fails to return normally. -/
inductive PyFailure where
  /-- `response.json()` on the `None` sentinel (line 188). -/
  | attributeError
  /-- `process_df` raised: `KeyError` from dropping an absent
  `"Time Period"` column, or `AttributeError` from splitting a NaN. -/
  | processDfError
  /-- a fetch failure propagated out of `load_safely`. -/
  | downloadError (isDownloadError : Bool) (cause : String)
  /-- the unbounded quota-retry loop never terminates. -/
  | neverReturns
deriving DecidableEq, Repr

/-- The external collaborators of `generate_dataset_and_showcase`:
the downloader (scripted attempts per URL, JSON/CSV decoding per
response), the country-code service, the catalog's location check
(`add_country_location` may raise `HDXError`) and `slugify`. -/
structure Env where
  attempts : String → List DlAttempt
  json : Nat → SdmxStructure
  csvParse : Nat → DF
  getFullUrl : String → String
  iso3FromIso2 : String → Option String
  iso3Fuzzy : String → Option String
  addCountryLocationOk : String → Bool
  slugify : String → String

/-- `countrydata`: iso2 `id` and `names[0]['value']`. -/
structure CountryData where
  id : String
  countryname : String
deriving DecidableEq, Repr

/-- The mutable per-country state of the endpoint loop. -/
structure LoopState where
  resources : List ResSpec
  earliest_year : Nat
  latest_year : Nat
deriving DecidableEq, Repr

/-- The non-country prefix test of lines 132-133 (exact slices:
`countryname[:4]`, `countryname[:5]`, `countryname[:7]`). -/
def nonCountryName (countryname : String) : Bool :=
  ["WB: ", "SDG:", "MDG:", "UIS:", "EFA:"].contains (countryname.take 4) ||
  ["GEMR:", "AIMS:"].contains (countryname.take 5) ||
  ["UNICEF:", "UNESCO:"].contains (countryname.take 7)

/-- ISO3 resolution of lines 136-142: direct iso2 lookup, then fuzzy
name match (of whose result pair the code keeps the first component). -/
def resolveIso3 (env : Env) (countryiso2 countryname : String) : Option String :=
  match env.iso3FromIso2 countryiso2 with
  | some i => some i
  | none => env.iso3Fuzzy countryname

/-- `structure_url % countryiso2`: substitute the single `%s`
placeholder (templates built by `get_endpoints_metadata` contain exactly
one). -/
def pyFormatS (tmpl arg : String) : String := ⟨formatSAux arg.data tmpl.data⟩

/-- The five fixed dataset/showcase tags. -/
def the_tags : List String :=
  ["indicators", "sustainable development", "demographics", "socioeconomics",
   "education"]

/-- The dataset record assembled per country (the fields the scraper
sets). -/
structure HDataset where
  name : String
  title : String
  maintainer : String
  organization : String
  subnational : Bool
  location : String
  update_frequency : String
  tags : List String
  resources : List ResSpec
  year_range : Option (Nat × Nat)
deriving DecidableEq, Repr

/-- The companion showcase record. -/
structure HShowcase where
  name : String
  title : String
  notes : String
  url : String
  image_url : String
  tags : List String
deriving DecidableEq, Repr

/-- The chunking loop of lines 230-247 with its side effects: in merge
mode each emitted chunk is downloaded (`download_df`) and appended to the
accumulated frame, a `None` download being skipped; in split mode each
emitted chunk becomes a link resource (`create_resource`). -/
def chunkLoop (env : Env) (merge : Bool) (indicator description csv_url : String)
    (k : Nat → Nat) : List Nat → Nat → Nat → Nat → Option DF → List ResSpec →
    Except PyFailure (Option DF × List ResSpec)
  | [], _, _, _, df, rs => .ok (df, rs)
  | y :: rest, obs_count, start_year, end_year, df, rs =>
    if obs_count + k y < MAX_OBSERVATIONS then
      chunkLoop env merge indicator description csv_url k rest (obs_count + k y) y
        end_year df rs
    else
      let url_years := "&startPeriod=" ++ toString start_year ++ "&endPeriod=" ++
        toString end_year
      if merge then
        match load_safely (env.attempts (env.getFullUrl (csv_url ++ url_years))) with
        | (.got r, _) =>
          let df1 := env.csvParse r
          let df2 : Option DF := some (match df with
            | none => df1
            | some d => dfAppend d df1)
          chunkLoop env merge indicator description csv_url k rest (k y) start_year y
            df2 rs
        | (.noData, _) =>
          chunkLoop env merge indicator description csv_url k rest (k y) start_year y
            df rs
        | (.raised isDE cause, _) => .error (.downloadError isDE cause)
        | (.looping, _) => .error .neverReturns
      else
        let r : ResSpec := .link
          (indicator ++ " (" ++ toString start_year ++ "-" ++ toString end_year ++ ")")
          description "csv" (env.getFullUrl (csv_url ++ url_years))
        chunkLoop env merge indicator description csv_url k rest (k y) start_year y
          df (add_update_resource rs r)

/-- One iteration of the endpoint loop (lines 183-258) over one
`endpoints_metadata` entry `(endpoint, indicator, structure_url,
more_info_url)`. -/
def process_endpoint (env : Env) (merge : Bool) (folder countryiso2 countryname : String)
    (st : LoopState) (entry : String × String × String × String) :
    Except PyFailure LoopState :=
  let indicator := entry.2.1
  let structure_url := pyFormatS entry.2.2.1 countryiso2
  let more_info_url := entry.2.2.2
  match load_safely (env.attempts (structure_url ++ dataurl_suffix)) with
  | (.raised isDE cause, _) => .error (.downloadError isDE cause)
  | (.looping, _) => .error .neverReturns
  | (.noData, _) => .error .attributeError
  | (.got r, _) =>
    let json := env.json r
    let time_periods := timePeriodsOf json.observation
    let years := yearsDesc time_periods
    match years with
    | [] => .ok st
    | end_year0 :: _ =>
      let st1 : LoopState :=
        { resources := st.resources,
          earliest_year := if years.getLastD 0 < st.earliest_year then years.getLastD 0
            else st.earliest_year,
          latest_year := if end_year0 > st.latest_year then end_year0
            else st.latest_year }
      let csv_url := structure_url ++ "format=csv"
      let description := "To save, right click download button & click Save Link/Target As  \n" ++
        (if more_info_url = " " then more_info_url
         else "[Info on " ++ indicator ++ "](" ++ more_info_url ++ ")")
      match chunkLoop env merge indicator description csv_url (dictGet time_periods)
          years 0 end_year0 end_year0 none st1.resources with
      | .error e => .error e
      | .ok (df, rs1) =>
        match df with
        | none => .ok { st1 with resources := rs1 }
        | some d =>
          match process_df d with
          | none => .error .processDfError
          | some _ =>
            let file_csv := folder ++ "/" ++
              (pyReplace1 ("UNESCO_" ++ countryname ++ "_" ++ indicator ++ ".csv") ' ' '-')
            .ok { st1 with resources :=
              add_update_resource rs1 (.file indicator description "csv" file_csv) }

/-- The endpoint loop: fold `process_endpoint` over the sorted entries. -/
def endpointLoop (env : Env) (merge : Bool) (folder countryiso2 countryname : String)
    (eml : List (String × String × String × String)) (st : LoopState) :
    Except PyFailure LoopState :=
  eml.foldlM (process_endpoint env merge folder countryiso2 countryname) st

/-- `generate_dataset_and_showcase(downloader, countrydata,
endpoints_metadata, folder, merge_resources=True)`. -/
def generate_dataset_and_showcase (env : Env) (countrydata : CountryData)
    (endpoints_metadata : List (String × String × String × String))
    (folder : String) (merge_resources : Bool := true) :
    Except PyFailure (Option HDataset × Option HShowcase) :=
  let countryiso2 := countrydata.id
  let countryname := countrydata.countryname
  if nonCountryName countryname then .ok (none, none)
  else
    match resolveIso3 env countryiso2 countryname with
    | none => .ok (none, none)
    | some countryiso3 =>
      if env.addCountryLocationOk countryiso3 then
        let slugified_name := pyLower (env.slugify ("UNESCO indicators for " ++ countryname))
        match endpointLoop env merge_resources folder countryiso2 countryname
            (sortByKey endpoints_metadata) ⟨[], 10000, 0⟩ with
        | .error e => .error e
        | .ok st =>
          if st.resources.length = 0 then .ok (none, none)
          else
            .ok (some
              { name := slugified_name,
                title := countryname ++ " - Sustainable development, Education, Demographic and Socioeconomic Indicators",
                maintainer := "196196be-6037-4488-8b71-d786adf4c081",
                organization := "18f2d467-dcf8-4b7e-bffa-b3c338ba3a7c",
                subnational := false,
                location := countryiso3,
                update_frequency := "Every year",
                tags := the_tags,
                resources := st.resources,
                year_range := some (st.earliest_year, st.latest_year) },
              some
              { name := slugified_name ++ "-showcase",
                title := "Indicators for " ++ countryname,
                notes := "Education, literacy and other indicators for " ++ countryname,
                url := "http://uis.unesco.org/en/country/" ++ countryiso2,
                image_url := "http://www.tellmaps.com/uis/internal/assets/uisheader-en.png",
                tags := the_tags })
      else .ok (none, none)

/-- The year lists the structure metadata reports per endpoint (what the
spec calls the observed years); used to state the year-range claim. -/
def yearsOfEndpoint (env : Env) (countryiso2 : String)
    (entry : String × String × String × String) : List Nat :=
  match load_safely (env.attempts (pyFormatS entry.2.2.1 countryiso2 ++ dataurl_suffix)) with
  | (.got r, _) => yearsDesc (timePeriodsOf (env.json r).observation)
  | _ => []

/-- All observed years across the (sorted) endpoints of a country. -/
def observedYears (env : Env) (countryiso2 : String)
    (em : List (String × String × String × String)) : List Nat :=
  ((sortByKey em).map (yearsOfEndpoint env countryiso2)).flatten

/-! ## Concrete test fixtures

A downloader that always answers with response id 0, one endpoint whose
structure metadata reports a single year 2014 with 2000 (over-ceiling)
observations, and the records `generate_dataset_and_showcase` builds from
them in split mode. -/

def envFix : Env := {
  attempts := fun _ => [.ok 0],
  json := fun _ => { name := "Education", observation := [⟨"TIME_PERIOD", [(2014, 2000)]⟩] },
  csvParse := fun _ => ⟨[]⟩,
  getFullUrl := fun u => u,
  iso3FromIso2 := fun i => if i = "AR" then some "ARG" else none,
  iso3Fuzzy := fun _ => none,
  addCountryLocationOk := fun _ => true,
  slugify := fun s => s }

def emFix : List (String × String × String × String) :=
  [("EDU_FINANCE", "Education", "b%s?", " ")]

def dsFix : HDataset := {
  name := "unesco indicators for argentina",
  title := "Argentina - Sustainable development, Education, Demographic and Socioeconomic Indicators",
  maintainer := "196196be-6037-4488-8b71-d786adf4c081",
  organization := "18f2d467-dcf8-4b7e-bffa-b3c338ba3a7c",
  subnational := false,
  location := "ARG",
  update_frequency := "Every year",
  tags := the_tags,
  resources := [.link "Education (2014-2014)"
    "To save, right click download button & click Save Link/Target As  \n "
    "csv" "bAR?format=csv&startPeriod=2014&endPeriod=2014"],
  year_range := some (2014, 2014) }

def shFix : HShowcase := {
  name := "unesco indicators for argentina-showcase",
  title := "Indicators for Argentina",
  notes := "Education, literacy and other indicators for Argentina",
  url := "http://uis.unesco.org/en/country/AR",
  image_url := "http://www.tellmaps.com/uis/internal/assets/uisheader-en.png",
  tags := the_tags }

def dsWB : HDataset := {
  name := "unesco indicators for wb:nospace",
  title := "WB:NoSpace - Sustainable development, Education, Demographic and Socioeconomic Indicators",
  maintainer := "196196be-6037-4488-8b71-d786adf4c081",
  organization := "18f2d467-dcf8-4b7e-bffa-b3c338ba3a7c",
  subnational := false,
  location := "ARG",
  update_frequency := "Every year",
  tags := the_tags,
  resources := [.link "Education (2014-2014)"
    "To save, right click download button & click Save Link/Target As  \n "
    "csv" "bAR?format=csv&startPeriod=2014&endPeriod=2014"],
  year_range := some (2014, 2014) }

def shWB : HShowcase := {
  name := "unesco indicators for wb:nospace-showcase",
  title := "Indicators for WB:NoSpace",
  notes := "Education, literacy and other indicators for WB:NoSpace",
  url := "http://uis.unesco.org/en/country/AR",
  image_url := "http://www.tellmaps.com/uis/internal/assets/uisheader-en.png",
  tags := the_tags }

/-! ## Lemmas about the string primitives -/

theorem pySplit_ne_nil (sep : Char) : ∀ l : List Char, pySplit sep l ≠ []
  | [] => by simp [pySplit]
  | c :: rest => by
    unfold pySplit
    cases h : pySplit sep rest with
    | nil => simp
    | cons a t => dsimp only; split <;> simp

theorem pySplit_no_sep (sep : Char) : ∀ l : List Char, sep ∉ l → pySplit sep l = [l]
  | [], _ => rfl
  | c :: rest, h => by
    have hc : ¬ (c = sep) := fun e => h (e ▸ List.mem_cons_self c rest)
    have hr := pySplit_no_sep sep rest (fun m => h (List.mem_cons_of_mem c m))
    unfold pySplit
    rw [hr]
    simp [hc]

theorem pySplit_sep_append (sep : Char) :
    ∀ a b : List Char, sep ∉ a → pySplit sep (a ++ sep :: b) = a :: pySplit sep b
  | [], b, _ => by
    cases hb : pySplit sep b with
    | nil => exact absurd hb (pySplit_ne_nil sep b)
    | cons x t => simp [pySplit, hb]
  | c :: a, b, h => by
    have hc : ¬ (c = sep) := fun e => h (e ▸ List.mem_cons_self c a)
    have ih := pySplit_sep_append sep a b (fun m => h (List.mem_cons_of_mem c m))
    show pySplit sep (c :: (a ++ sep :: b)) = (c :: a) :: pySplit sep b
    simp only [pySplit]
    rw [ih]
    simp [hc]

theorem pyJoin_pySplit (sep : Char) : ∀ l : List Char, pyJoin sep (pySplit sep l) = l
  | [] => rfl
  | c :: rest => by
    have ih := pyJoin_pySplit sep rest
    cases h : pySplit sep rest with
    | nil => exact absurd h (pySplit_ne_nil sep rest)
    | cons a t =>
      rw [h] at ih
      by_cases hc : c = sep
      · simp only [pySplit, h, if_pos hc]
        cases t with
        | nil => simp [pyJoin] at ih ⊢; rw [hc, ih]; exact ⟨rfl, rfl⟩
        | cons y t2 => simp only [pyJoin] at ih ⊢; rw [hc, ih]; simp
      · simp only [pySplit, h, if_neg hc]
        cases t with
        | nil => simp only [pyJoin] at ih ⊢; rw [ih]
        | cons y t2 =>
          simp only [pyJoin] at ih ⊢
          rw [show (c :: a) ++ sep :: pyJoin sep (y :: t2) = c :: (a ++ sep :: pyJoin sep (y :: t2)) from rfl]
          rw [ih]

/-! ## Lemmas about `rangeSum` -/

theorem rangeSum_append (k : Nat → Nat) (P Q : List Nat) (s e : Nat) :
    rangeSum k (P ++ Q) s e = rangeSum k P s e + rangeSum k Q s e := by
  simp [rangeSum, List.filter_append]

theorem rangeSum_zero_of_rev (k : Nat → Nat) (P : List Nat) {s e : Nat} (h : e < s) :
    rangeSum k P s e = 0 := by
  have hf : P.filter (fun y => s ≤ y && y ≤ e) = [] := by
    rw [List.filter_eq_nil_iff]
    intro y _ hy
    simp only [Bool.and_eq_true, decide_eq_true_eq] at hy
    omega
  simp [rangeSum, hf]

theorem rangeSum_zero_of_lt (k : Nat → Nat) {P : List Nat} {s : Nat} (e : Nat)
    (h : ∀ y ∈ P, y < s) : rangeSum k P s e = 0 := by
  have hf : P.filter (fun y => s ≤ y && y ≤ e) = [] := by
    rw [List.filter_eq_nil_iff]
    intro y hy hc
    simp only [Bool.and_eq_true, decide_eq_true_eq] at hc
    exact absurd hc.1 (not_le.mpr (h y hy))
  simp [rangeSum, hf]

theorem rangeSum_zero_of_gt (k : Nat → Nat) {P : List Nat} {e : Nat} (s : Nat)
    (h : ∀ y ∈ P, e < y) : rangeSum k P s e = 0 := by
  have hf : P.filter (fun y => s ≤ y && y ≤ e) = [] := by
    rw [List.filter_eq_nil_iff]
    intro y hy hc
    simp only [Bool.and_eq_true, decide_eq_true_eq] at hc
    exact absurd hc.2 (not_le.mpr (h y hy))
  simp [rangeSum, hf]

theorem rangeSum_lower_eq (k : Nat → Nat) {P : List Nat} {a b : Nat} (e : Nat)
    (h1 : ∀ p ∈ P, a ≤ p) (h2 : ∀ p ∈ P, b ≤ p) :
    rangeSum k P a e = rangeSum k P b e := by
  unfold rangeSum
  rw [List.filter_congr (fun p hp => ?_)]
  simp [h1 p hp, h2 p hp]

theorem rangeSum_singleton (k : Nat → Nat) (y s e : Nat) :
    rangeSum k [y] s e = if s ≤ y ∧ y ≤ e then k y else 0 := by
  by_cases h1 : s ≤ y <;> by_cases h2 : y ≤ e <;>
    simp [rangeSum, List.filter, h1, h2]

/-! ## Soundness of the chunking loop's accumulator -/

/-- Invariant of the chunking loop: at each iteration the accumulator
`obs_count` equals the range-sum of the current open chunk over the
already-processed years, so every emitted multi-year chunk has range-sum
below the ceiling.  State `A` (`start_year ≤ end_year`) holds while the
loop is accumulating; state `B` (`end_year < start_year`) holds right
after an emission, before any further `start_year` update. -/
theorem chunkAux_sound (k : Nat → Nat) :
    ∀ (ys P : List Nat) (obs s e : Nat),
    List.Pairwise (fun a b => b < a) ys →
    (∀ y ∈ ys, y < s ∧ y < e) →
    ((s ≤ e ∧ obs = rangeSum k P s e ∧ (s < e → obs < MAX_OBSERVATIONS) ∧
        (∀ p ∈ P, s ≤ p)) ∨
      (e < s ∧ obs = rangeSum k P e e ∧ (∀ p ∈ P, e ≤ p))) →
    ∀ c ∈ chunkAux k ys obs s e, c.1 ≠ c.2 →
      rangeSum k (P ++ ys) c.1 c.2 < MAX_OBSERVATIONS
  | [], P, obs, s, e, _, _, _ => by simp [chunkAux]
  | y :: rest, P, obs, s, e, hpw, hsep, hst => by
    obtain ⟨hys, hye⟩ := hsep y (List.mem_cons_self y rest)
    have hpw' : List.Pairwise (fun a b => b < a) rest := hpw.of_cons
    have hrest_lt_y : ∀ z ∈ rest, z < y := (List.pairwise_cons.mp hpw).1
    have hPlow : ∀ p ∈ P, y < p := by
      intro p hp
      cases hst with
      | inl hA => exact lt_of_lt_of_le hys (hA.2.2.2 p hp)
      | inr hB => exact lt_of_lt_of_le hye (hB.2.2 p hp)
    have hPy : ∀ p ∈ P ++ [y], y ≤ p := by
      intro p hp
      rcases List.mem_append.mp hp with h | h
      · exact le_of_lt (hPlow p h)
      · simp only [List.mem_singleton] at h
        exact le_of_eq h.symm
    simp only [chunkAux]
    split
    case isTrue hlt =>
      intro c hc hne
      have hsep' : ∀ z ∈ rest, z < y ∧ z < e :=
        fun z hz => ⟨hrest_lt_y z hz, lt_trans (hrest_lt_y z hz) hye⟩
      have hobs' : obs + k y = rangeSum k (P ++ [y]) y e := by
        rw [rangeSum_append]
        have h1 : rangeSum k [y] y e = k y := by
          rw [rangeSum_singleton]
          simp [le_of_lt hye]
        rw [h1]
        cases hst with
        | inl hA =>
          have heq : rangeSum k P y e = rangeSum k P s e :=
            rangeSum_lower_eq k e (fun p hp => le_of_lt (hPlow p hp)) hA.2.2.2
          rw [heq, ← hA.2.1]
        | inr hB =>
          have heq : rangeSum k P y e = rangeSum k P e e :=
            rangeSum_lower_eq k e (fun p hp => le_of_lt (hPlow p hp)) hB.2.2
          rw [heq, ← hB.2.1]
      have hst' : (y ≤ e ∧ obs + k y = rangeSum k (P ++ [y]) y e ∧
          (y < e → obs + k y < MAX_OBSERVATIONS) ∧ (∀ p ∈ P ++ [y], y ≤ p)) ∨
          (e < y ∧ obs + k y = rangeSum k (P ++ [y]) e e ∧ (∀ p ∈ P ++ [y], e ≤ p)) :=
        Or.inl ⟨le_of_lt hye, hobs', fun _ => hlt, hPy⟩
      have key := chunkAux_sound k rest (P ++ [y]) (obs + k y) y e hpw' hsep' hst' c hc hne
      rw [List.append_assoc] at key
      simpa using key
    case isFalse hge =>
      intro c hc hne
      rcases List.mem_cons.mp hc with hceq | hcrec
      · subst hceq
        simp only at hne
        cases hst with
        | inl hA =>
          obtain ⟨hse, hobs, hbound, _⟩ := hA
          have hslt : s < e := lt_of_le_of_ne hse hne
          rw [rangeSum_append]
          have h0 : rangeSum k (y :: rest) s e = 0 := by
            refine rangeSum_zero_of_lt k e (fun z hz => ?_)
            rcases List.mem_cons.mp hz with h | h
            · exact h ▸ hys
            · exact lt_trans (hrest_lt_y z h) hys
          rw [h0, ← hobs]
          simpa using hbound hslt
        | inr hB =>
          rw [rangeSum_zero_of_rev k _ hB.1]
          simp [MAX_OBSERVATIONS]
      · have hsep2 : ∀ z ∈ rest, z < s ∧ z < y :=
          fun z hz => ⟨lt_trans (hrest_lt_y z hz) hys, hrest_lt_y z hz⟩
        have hobs2 : k y = rangeSum k (P ++ [y]) y y := by
          rw [rangeSum_append]
          have h0 : rangeSum k P y y = 0 := rangeSum_zero_of_gt k y hPlow
          have h1 : rangeSum k [y] y y = k y := by
            rw [rangeSum_singleton]; simp
          rw [h0, h1]
          omega
        have hst2 : (s ≤ y ∧ k y = rangeSum k (P ++ [y]) s y ∧
            (s < y → k y < MAX_OBSERVATIONS) ∧ (∀ p ∈ P ++ [y], s ≤ p)) ∨
            (y < s ∧ k y = rangeSum k (P ++ [y]) y y ∧ (∀ p ∈ P ++ [y], y ≤ p)) :=
          Or.inr ⟨hys, hobs2, hPy⟩
        have key := chunkAux_sound k rest (P ++ [y]) (k y) s y hpw' hsep2 hst2 c hcrec hne
        rw [List.append_assoc] at key
        simpa using key

/-- **C3.**  Every chunk emitted by the chunking loop of
`generate_dataset_and_showcase` satisfies the `YearChunk` invariant: the
sum of the observation counts of the years inside the chunk's inclusive
range stays below the ceiling `MAX_OBSERVATIONS = 1800`, except that a
chunk consisting of exactly one year may exceed it. -/
theorem claim3_emitted_chunks_below_ceiling (k : Nat → Nat) (years : List Nat)
    (hdesc : List.Pairwise (fun a b => b < a) years) :
    ∀ c ∈ chunks k years, c.1 ≠ c.2 →
      rangeSum k years c.1 c.2 < MAX_OBSERVATIONS := by
  cases years with
  | nil => simp [chunks]
  | cons y0 rest =>
    intro c hc hne
    have hpw' : List.Pairwise (fun a b => b < a) rest := hdesc.of_cons
    have hrest : ∀ z ∈ rest, z < y0 := (List.pairwise_cons.mp hdesc).1
    have hsep : ∀ z ∈ rest, z < y0 ∧ z < y0 := fun z hz => ⟨hrest z hz, hrest z hz⟩
    have hobs0 : ∀ o : Nat, o = k y0 → o = rangeSum k [y0] y0 y0 := by
      intro o ho
      rw [rangeSum_singleton]
      simpa using ho
    simp only [chunks, chunkAux] at hc
    split at hc
    case isTrue h =>
      have hst : (y0 ≤ y0 ∧ 0 + k y0 = rangeSum k [y0] y0 y0 ∧
          (y0 < y0 → 0 + k y0 < MAX_OBSERVATIONS) ∧ (∀ p ∈ [y0], y0 ≤ p)) ∨
          (y0 < y0 ∧ 0 + k y0 = rangeSum k [y0] y0 y0 ∧ (∀ p ∈ [y0], y0 ≤ p)) :=
        Or.inl ⟨le_refl y0, hobs0 _ (by omega), fun hlt => absurd hlt (lt_irrefl y0),
          by simp⟩
      have key := chunkAux_sound k rest [y0] (0 + k y0) y0 y0 hpw' hsep hst c hc hne
      simpa using key
    case isFalse h =>
      rcases List.mem_cons.mp hc with hceq | hcrec
      · exact absurd (by rw [hceq]) hne
      · have hst : (y0 ≤ y0 ∧ k y0 = rangeSum k [y0] y0 y0 ∧
            (y0 < y0 → k y0 < MAX_OBSERVATIONS) ∧ (∀ p ∈ [y0], y0 ≤ p)) ∨
            (y0 < y0 ∧ k y0 = rangeSum k [y0] y0 y0 ∧ (∀ p ∈ [y0], y0 ≤ p)) :=
          Or.inl ⟨le_refl y0, hobs0 _ rfl, fun hlt => absurd hlt (lt_irrefl y0),
            by simp⟩
        have key := chunkAux_sound k rest [y0] (k y0) y0 y0 hpw' hsep hst c hcrec hne
        simpa using key

/-- Witness for C3 at a concrete input: years 2014, 2013, 2012 with
counts 900, 800, 700 make the loop emit exactly the chunk (2013, 2014),
whose range-sum 1700 is below the ceiling. -/
theorem claim3_witness :
    List.Pairwise (fun a b => b < a) [2014, 2013, 2012] ∧
    chunks (dictGet [(2014, 900), (2013, 800), (2012, 700)]) [2014, 2013, 2012] =
      [(2013, 2014)] ∧
    rangeSum (dictGet [(2014, 900), (2013, 800), (2012, 700)]) [2014, 2013, 2012]
      2013 2014 < MAX_OBSERVATIONS :=
  ⟨by decide, by decide,
    claim3_emitted_chunks_below_ceiling
      (dictGet [(2014, 900), (2013, 800), (2012, 700)]) [2014, 2013, 2012]
      (by decide) (2013, 2014) (by decide) (by decide)⟩

/-- **C1.**  The claim states that the emitted chunks tile the observed
year span with the final (oldest) partial chunk always closed and
emitted at loop end.  The code does not do this: after the loop there is
no emission of the still-open chunk, so for a single observed year 2014
with count 5 (below the ceiling) the loop emits no chunk at all and the
year 2014 lies in no emitted chunk.  The repository's own test
(`tests/test_unesco.py`) expects the final partial chunk to be emitted
(resource `"Education: Financial resources (1970-1998)"`), so this is a
defect of the code, not of the claim. -/
theorem claim1_final_chunk_never_emitted :
    chunks (fun _ => 5) [2014] = [] ∧
    ¬ ∃ c ∈ chunks (fun _ => 5) [2014], c.1 ≤ 2014 ∧ 2014 ≤ c.2 := by
  constructor
  · rfl
  · simp [chunks, chunkAux, MAX_OBSERVATIONS]

/-! ## Cell-splitting semantics (C2) -/

theorem string_mk_data (s : String) : String.mk s.data = s := by cases s; rfl

theorem splitCode_colon (code label : String) (h : (':' : Char) ∉ code.data) :
    splitCode (code ++ ":" ++ label) = code := by
  unfold splitCode
  have hd : (code ++ ":" ++ label).data = code.data ++ ':' :: label.data := by
    rw [String.data_append, String.data_append]
    simp
  rw [hd, pySplit_sep_append _ _ _ h]
  simp [string_mk_data]

theorem splitLabel_colon (code label : String) (h : (':' : Char) ∉ code.data) :
    splitLabel (code ++ ":" ++ label) = label := by
  unfold splitLabel
  have hd : (code ++ ":" ++ label).data = code.data ++ ':' :: label.data := by
    rw [String.data_append, String.data_append]
    simp
  rw [hd, pySplit_sep_append _ _ _ h]
  simp [pyJoin_pySplit, string_mk_data]

theorem splitCode_no_colon (s : String) (h : (':' : Char) ∉ s.data) :
    splitCode s = s := by
  unfold splitCode
  rw [pySplit_no_sep _ _ h]
  simp [string_mk_data]

theorem splitLabel_no_colon (s : String) (h : (':' : Char) ∉ s.data) :
    splitLabel s = "" := by
  unfold splitLabel
  rw [pySplit_no_sep _ _ h]
  rfl

theorem mapCells_map_some (f : String → String) (vs : List String) :
    mapCells f (vs.map some) = some (vs.map (fun s => some (f s))) := by
  induction vs with
  | nil => rfl
  | cons a t ih =>
    simp only [mapCells, List.map_cons, List.mapM_cons] at ih ⊢
    rw [ih]
    rfl

theorem known_split_columns_nodup : known_split_columns.Nodup := by decide

theorem filter_contains_singleton (c : String) (l : List String) (hnd : l.Nodup)
    (hc : c ∈ l) : l.filter (fun x => [c].contains x) = [c] := by
  induction l with
  | nil => cases hc
  | cons a t ih =>
    rw [List.filter_cons]
    by_cases hac : a = c
    · subst hac
      have hnt : a ∉ t := (List.nodup_cons.mp hnd).1
      have ht : t.filter (fun x => x == a) = [] := by
        rw [List.filter_eq_nil_iff]
        intro x hx hcx
        exact hnt ((beq_iff_eq.mp hcx) ▸ hx)
      simp only [List.contains_cons, List.contains_nil, Bool.or_false, beq_self_eq_true,
        if_true]
      rw [ht]
    · have hct : c ∈ t := by
        rcases List.mem_cons.mp hc with h | h
        · exact absurd h.symm hac
        · exact h
      have hpa : ([c].contains a) = false := by simpa using hac
      rw [hpa]
      exact ih (List.nodup_cons.mp hnd).2 hct

theorem getCol_singleton (c : String) (vs : List Cell) :
    DF.getCol ⟨[(c, vs)]⟩ c = some vs := by
  simp [DF.getCol, List.find?]

/-- **C2 (counterexample).**  The claim says a cell with no colon is
treated as label-only with empty code; on the cell `"Argentina"` the
code actually produces the empty string as the label and the whole cell
as the code. -/
theorem claim2_no_colon_counterexample :
    split_columns_df ⟨[("Sex", [some "Argentina"])]⟩ " code" true =
      some ⟨[("Sex", [some ""]), ("Sex code", [some "Argentina"])]⟩ ∧
    split_columns_df ⟨[("Sex", [some "Argentina"])]⟩ " code" true ≠
      some ⟨[("Sex", [some "Argentina"]), ("Sex code", [some ""])]⟩ := by
  constructor
  · rfl
  · decide

/-- **C2 (amended).**  For every cell of a column in the known
splittable set, a cell of the form `"<code>:<label>"` splits into the
content before the first colon (stored in the `"<name> code"` column)
and everything after the first colon (the label column); a cell with no
colon yields an empty label and the entire cell content as the code. -/
theorem claim2_split_cell_semantics (suffix c : String) (vs : List String)
    (hc : c ∈ known_split_columns) :
    split_columns_df ⟨[(c, vs.map some)]⟩ suffix true =
      some ⟨[(c, vs.map (fun s => some (splitLabel s))),
             (c ++ suffix, vs.map (fun s => some (splitCode s)))]⟩ ∧
    (∀ code label : String, (':' : Char) ∉ code.data →
      splitCode (code ++ ":" ++ label) = code ∧
      splitLabel (code ++ ":" ++ label) = label) ∧
    (∀ s : String, (':' : Char) ∉ s.data → splitCode s = s ∧ splitLabel s = "") := by
  refine ⟨?_, fun code label h => ⟨splitCode_colon code label h, splitLabel_colon code label h⟩,
    fun s h => ⟨splitCode_no_colon s h, splitLabel_no_colon s h⟩⟩
  simp only [split_columns_df, DF.names, List.map_cons, List.map_nil]
  rw [filter_contains_singleton c known_split_columns known_split_columns_nodup hc]
  rw [List.mapM_cons, List.mapM_nil]
  simp [getCol_singleton, mapCells_map_some]

/-- Witness for C2 (amended) at concrete cells. -/
theorem claim2_witness :
    ("Sex" ∈ known_split_columns) ∧
    split_columns_df ⟨[("Sex", [some "AR:Argentina"])]⟩ " code" true =
      some ⟨[("Sex", [some "Argentina"]), ("Sex code", [some "AR"])]⟩ ∧
    splitCode "AR:Argentina" = "AR" ∧ splitLabel "AR:Argentina" = "Argentina" := by
  refine ⟨by decide, ?_, ?_, ?_⟩
  · have h := (claim2_split_cell_semantics " code" "Sex" ["AR:Argentina"] (by decide)).1
    exact h.trans (by decide)
  · exact ((claim2_split_cell_semantics " code" "Sex" [] (by decide)).2.1 "AR" "Argentina"
      (by decide)).1
  · exact ((claim2_split_cell_semantics " code" "Sex" [] (by decide)).2.1 "AR" "Argentina"
      (by decide)).2

/-! ## Retry-wrapper classification (C6) and its call sites (C5) -/

/-- **C6.**  `load_safely` classifies download failures three ways: a
quota-exceeded failure sleeps 60 seconds and retries the same URL
indefinitely, never itself producing an error (succeeding as soon as an
attempt succeeds, and still looping after any number of pure-quota
attempts); a not-found failure returns the `None` sentinel; any other
failure propagates unchanged, carrying the original classification and
cause (a non-`DownloadError` exception is not even caught). -/
theorem claim6_load_safely_classification (cause : String) (n r : Nat)
    (attempts : List DlAttempt) :
    (pyContains "Quota Exceeded" cause = true →
      load_safely (List.replicate n (.err true cause) ++ .ok r :: attempts) =
        (.got r, 60 * n) ∧
      load_safely (List.replicate n (.err true cause)) = (.looping, 60 * n)) ∧
    (pyContains "Quota Exceeded" cause = false → pyContains "Not Found" cause = true →
      load_safely (.err true cause :: attempts) = (.noData, 0)) ∧
    (pyContains "Quota Exceeded" cause = false → pyContains "Not Found" cause = false →
      load_safely (.err true cause :: attempts) = (.raised true cause, 0)) ∧
    load_safely (.err false cause :: attempts) = (.raised false cause, 0) := by
  refine ⟨fun hq => ?_, fun hq hn => ?_, fun hq hn => ?_, ?_⟩
  · induction n with
    | zero => simp [load_safely]
    | succ m ih =>
      simp only [List.replicate_succ, List.cons_append, load_safely, if_pos rfl, hq,
        if_true, List.append_eq]
      refine ⟨?_, ?_⟩
      · rw [ih.1]
        simp only [Prod.mk.injEq]
        exact ⟨trivial, by omega⟩
      · rw [ih.2]
        simp only [Prod.mk.injEq]
        exact ⟨trivial, by omega⟩
  · simp [load_safely, hq, hn]
  · simp [load_safely, hq, hn]
  · simp [load_safely]

/-- Witness for C6 at concrete causes: two quota failures then success
(120 seconds slept), a not-found failure, an unrecognized
`DownloadError`, and an uncaught non-`DownloadError` exception. -/
theorem claim6_witness :
    load_safely [.err true "x Quota Exceeded", .err true "x Quota Exceeded", .ok 7] =
      (.got 7, 120) ∧
    load_safely [.err true "404 Not Found"] = (.noData, 0) ∧
    load_safely [.err true "500 Server Error"] = (.raised true "500 Server Error", 0) ∧
    load_safely [.err false "ValueError"] = (.raised false "ValueError", 0) := by
  refine ⟨?_, ?_, ?_, ?_⟩
  · exact ((claim6_load_safely_classification "x Quota Exceeded" 2 7 []).1 (by decide)).1
  · exact (claim6_load_safely_classification "404 Not Found" 0 0 []).2.1 (by decide)
      (by decide)
  · exact (claim6_load_safely_classification "500 Server Error" 0 0 []).2.2.1 (by decide)
      (by decide)
  · exact (claim6_load_safely_classification "ValueError" 0 0 []).2.2.2

/-- **C5.**  The claim states both callers of `load_safely` treat the
`None` sentinel as "skip" and continue without error.  The per-chunk CSV
download (`download_df`, lines 226-228) does: a not-found chunk download
leaves the accumulated frame and resources unchanged and the loop
continues.  The per-endpoint structure-metadata fetch (lines 187-188)
does not: it calls `response.json()` on the sentinel unconditionally, so
a not-found structure response raises `AttributeError` instead of being
skipped.  The repository's own design (returning `None` precisely so the
caller can skip) makes this a defect of the code. -/
theorem claim5_none_handling_call_sites :
    (process_endpoint
        { attempts := fun _ => [.err true "404 Not Found"],
          json := fun _ => ⟨"", []⟩, csvParse := fun _ => ⟨[]⟩,
          getFullUrl := fun u => u, iso3FromIso2 := fun _ => none,
          iso3Fuzzy := fun _ => none, addCountryLocationOk := fun _ => true,
          slugify := fun s => s }
        true "folder" "AR" "Argentina" ⟨[], 10000, 0⟩
        ("EDU_FINANCE", "Education", "base%s?", " ") = .error .attributeError) ∧
    (chunkLoop
        { attempts := fun _ => [.err true "404 Not Found"],
          json := fun _ => ⟨"", []⟩, csvParse := fun _ => ⟨[]⟩,
          getFullUrl := fun u => u, iso3FromIso2 := fun _ => none,
          iso3Fuzzy := fun _ => none, addCountryLocationOk := fun _ => true,
          slugify := fun s => s }
        true "Education" "d" "u" (fun _ => 2000) [2014] 0 2014 2014 none [] =
      .ok (none, [])) := by
  constructor
  · rfl
  · rfl

/-! ## Endpoint-metadata resolver (C8) -/

theorem charListLe_total : ∀ a b : List Char, charListLe a b = true ∨ charListLe b a = true
  | [], _ => Or.inl rfl
  | _ :: _, [] => Or.inr rfl
  | a :: as, b :: bs => by
    rcases lt_trichotomy a b with h | h | h
    · left; simp [charListLe, h]
    · subst h
      rcases charListLe_total as bs with ih | ih
      · left; simp [charListLe, ih]
      · right; simp [charListLe, ih]
    · right; simp [charListLe, h]

theorem charListLe_trans : ∀ a b c : List Char,
    charListLe a b = true → charListLe b c = true → charListLe a c = true
  | [], _, _, _, _ => rfl
  | _ :: _, [], _, hab, _ => by simp [charListLe] at hab
  | _ :: _, _ :: _, [], _, hbc => by simp [charListLe] at hbc
  | a :: as, b :: bs, c :: cs, hab, hbc => by
    simp only [charListLe] at hab hbc ⊢
    by_cases h1 : a < b
    · by_cases h2 : b < c
      · simp [lt_trans h1 h2]
      · by_cases h3 : c < b
        · simp [if_neg h2, if_pos h3] at hbc
        · have : b = c := le_antisymm (not_lt.mp h3) (not_lt.mp h2)
          subst this
          simp [h1]

    · by_cases h1' : b < a
      · simp [if_neg h1, if_pos h1'] at hab
      · have hba : a = b := le_antisymm (not_lt.mp h1') (not_lt.mp h1)
        subst hba
        by_cases h2 : a < c
        · simp [h2]
        · by_cases h3 : c < a
          · simp [if_neg h2, if_pos h3] at hbc
          · simp only [if_neg h1, if_neg h1'] at hab
            simp only [if_neg h2, if_neg h3] at hbc ⊢
            exact charListLe_trans as bs cs hab hbc

theorem foldl_append_shift (l : List String) :
    ∀ x : String, l.foldl (fun r s => r ++ s) x = x ++ l.foldl (fun r s => r ++ s) "" := by
  induction l with
  | nil => intro x; simp
  | cons a t ih =>
    intro x
    simp only [List.foldl_cons]
    rw [ih (x ++ a), ih ("" ++ a)]
    simp [String.append_assoc]

theorem string_join_cons (a : String) (l : List String) :
    String.join (a :: l) = a ++ String.join l := by
  simp only [String.join, List.foldl_cons]
  rw [foldl_append_shift l ("" ++ a)]
  simp

/-- **C8.**  `get_endpoints_metadata` processes endpoint ids in
deterministic ascending lexicographic key order (not insertion order) —
in particular the ids `EDU_FINANCE` and `DEM_ECO` produce metadata in the
order `DEM_ECO, EDU_FINANCE` for either insertion order — and for each
endpoint the URL template is the base data URL followed by one literal
segment per observation dimension (`"%s"` for `REF_AREA`, `"."` for every
other dimension), terminated by `"?"`. -/
theorem claim8_endpoints_metadata_order_and_urls (base_url : String)
    (fetchJson : String → SdmxStructure) (endpoints : List (String × String)) :
    List.Pairwise (fun a b => keyLe a.1 b.1 = true)
      (get_endpoints_metadata base_url fetchJson endpoints) ∧
    ((get_endpoints_metadata base_url fetchJson endpoints).map (fun q => q.1)).Perm
      (endpoints.map (fun p => p.1)) ∧
    (∀ q ∈ get_endpoints_metadata base_url fetchJson endpoints,
      q.2.2.1 = (base_url ++ "data/UNESCO," ++ q.1 ++ "/") ++
        String.join ((fetchJson ((base_url ++ "data/UNESCO," ++ q.1 ++ "/") ++ "?" ++
          dataurl_suffix)).observation.map
            (fun d => if d.id = "REF_AREA" then "%s" else ".")) ++ "?") ∧
    (get_endpoints_metadata base_url fetchJson
        [("EDU_FINANCE", "u1"), ("DEM_ECO", "u2")]).map (fun q => q.1) =
      ["DEM_ECO", "EDU_FINANCE"] ∧
    (get_endpoints_metadata base_url fetchJson
        [("DEM_ECO", "u2"), ("EDU_FINANCE", "u1")]).map (fun q => q.1) =
      ["DEM_ECO", "EDU_FINANCE"] := by
  haveI instTot : IsTotal (String × String) (fun a b => keyLe a.1 b.1 = true) :=
    ⟨fun a b => charListLe_total a.1.data b.1.data⟩
  haveI instTrans : IsTrans (String × String) (fun a b => keyLe a.1 b.1 = true) :=
    ⟨fun a b c => charListLe_trans a.1.data b.1.data c.1.data⟩
  refine ⟨?_, ?_, ?_, ?_, ?_⟩
  · have hs : List.Sorted (fun a b => keyLe a.1 b.1 = true) (sortByKey endpoints) :=
      List.sorted_insertionSort _ endpoints
    rw [get_endpoints_metadata, List.pairwise_map]
    exact hs
  · rw [get_endpoints_metadata, List.map_map]
    have : ((sortByKey endpoints).map (fun p => p.1)).Perm (endpoints.map (fun p => p.1)) :=
      (List.perm_insertionSort _ endpoints).map (fun p => p.1)
    exact this
  · intro q hq
    rw [get_endpoints_metadata] at hq
    rcases List.mem_map.mp hq with ⟨ep, _, rfl⟩
    have hlast : ∀ l : List String, String.join (l ++ ["?"]) = String.join l ++ "?" := by
      intro l
      induction l with
      | nil => simp [String.join]
      | cons a t ih => rw [List.cons_append, string_join_cons, ih, string_join_cons,
          String.append_assoc]
    simp only [List.singleton_append, List.cons_append]
    rw [string_join_cons, hlast]
    exact (String.append_assoc _ _ _).symm
  · simp [get_endpoints_metadata, sortByKey, List.insertionSort, List.orderedInsert,
      keyLe, charListLe]
  · simp [get_endpoints_metadata, sortByKey, List.insertionSort, List.orderedInsert,
      keyLe, charListLe]

/-! ## Normalization totality and pass-through (C7) -/

theorem find?_filter_of_imp {α : Type} (p q : α → Bool) (l : List α)
    (h : ∀ x, p x = true → q x = true) : (l.filter q).find? p = l.find? p := by
  induction l with
  | nil => rfl
  | cons a t ih =>
    rw [List.filter_cons]
    cases hqa : q a with
    | true =>
      rw [if_pos rfl]
      cases hpa : p a with
      | true => rw [List.find?_cons_of_pos _ hpa, List.find?_cons_of_pos _ hpa]
      | false =>
        rw [List.find?_cons_of_neg _ (by simp [hpa]), List.find?_cons_of_neg _ (by simp [hpa]),
          ih]
    | false =>
      have hpa : p a = false := by
        cases hp : p a
        · rfl
        · rw [h a hp] at hqa; cases hqa
      rw [if_neg (by simp [hqa]), ih, List.find?_cons_of_neg _ (by simp [hpa])]

theorem getCol_isSome_of_mem_names {df : DF} {c : String} (h : c ∈ df.names) :
    ∃ vs, df.getCol c = some vs := by
  rcases List.mem_map.mp h with ⟨p, hp, rfl⟩
  have : (df.cols.find? (fun q => q.1 = p.1)).isSome = true :=
    List.find?_isSome.mpr ⟨p, hp, by simp⟩
  rcases Option.isSome_iff_exists.mp this with ⟨q, hq⟩
  exact ⟨q.2, by simp [DF.getCol, hq]⟩

theorem getCol_dropColumn {df df' : DF} {tp : String} (h : dropColumn df tp = some df')
    (c : String) (hc : c ≠ tp) : df'.getCol c = df.getCol c := by
  unfold dropColumn at h
  split at h
  · have hdf : df' = ⟨df.cols.filter (fun p => p.1 ≠ tp)⟩ := (Option.some.injEq _ _ ▸ h).symm
    subst hdf
    unfold DF.getCol
    rw [find?_filter_of_imp]
    intro x hx
    have : x.1 = c := by simpa using hx
    simp [this, hc]
  · cases h

theorem getCol_dropColumn_self {df df' : DF} {tp : String} (h : dropColumn df tp = some df') :
    df'.getCol tp = none := by
  unfold dropColumn at h
  split at h
  · have hdf : df' = ⟨df.cols.filter (fun p => p.1 ≠ tp)⟩ := (Option.some.injEq _ _ ▸ h).symm
    subst hdf
    unfold DF.getCol
    rw [Option.map_eq_none']
    rw [List.find?_eq_none]
    intro x hx
    have hx2 : x.1 ≠ tp := by
      have := List.of_mem_filter hx
      simpa using this
    simp [hx2]
  · cases h

theorem mapCells_isSome (f : String → String) (vs : List Cell)
    (h : ∀ x ∈ vs, x ≠ none) : ∃ ws, mapCells f vs = some ws := by
  induction vs with
  | nil => exact ⟨[], rfl⟩
  | cons a t ih =>
    rcases ih (fun x hx => h x (List.mem_cons_of_mem a hx)) with ⟨ws, hws⟩
    cases a with
    | none => exact absurd rfl (h none (List.mem_cons_self _ _))
    | some s =>
      refine ⟨some (f s) :: ws, ?_⟩
      simp only [mapCells, List.mapM_cons] at hws ⊢
      rw [hws]
      rfl

theorem mapM_isSome_of_forall {α β : Type} (f : α → Option β) :
    ∀ l : List α, (∀ x ∈ l, ∃ y, f x = some y) → ∃ ys, l.mapM f = some ys := by
  intro l
  induction l with
  | nil => exact fun _ => ⟨[], rfl⟩
  | cons a t ih =>
    intro h
    rcases h a (List.mem_cons_self a t) with ⟨y, hy⟩
    rcases ih (fun x hx => h x (List.mem_cons_of_mem a hx)) with ⟨ys, hys⟩
    refine ⟨y :: ys, ?_⟩
    rw [List.mapM_cons, hy, hys]
    rfl

theorem split_columns_df_total (df : DF) (suffix : String) (store : Bool)
    (h : ∀ c ∈ known_split_columns, ∀ vs, df.getCol c = some vs → ∀ x ∈ vs, x ≠ none) :
    ∃ out, split_columns_df df suffix store = some out := by
  unfold split_columns_df
  have hforall : ∀ c ∈ known_split_columns.filter (fun x => df.names.contains x),
      ∃ y, (do
        let vs ← df.getCol c
        let labels ← mapCells splitLabel vs
        if store then do
          let codes ← mapCells splitCode vs
          pure [(c, labels), (c ++ suffix, codes)]
        else
          pure [(c, labels)] : Option (List (String × List Cell))) = some y := by
    intro c hc
    have hck : c ∈ known_split_columns := List.mem_of_mem_filter hc
    have hcn : c ∈ df.names := by
      have := List.of_mem_filter hc
      simpa using this
    rcases getCol_isSome_of_mem_names hcn with ⟨vs, hvs⟩
    have hall : ∀ x ∈ vs, x ≠ none := h c hck vs hvs
    rcases mapCells_isSome splitLabel vs hall with ⟨labels, hl⟩
    rcases mapCells_isSome splitCode vs hall with ⟨codes, hcodes⟩
    cases store with
    | true =>
      refine ⟨[(c, labels), (c ++ suffix, codes)], ?_⟩
      rw [hvs]
      simp only [Option.bind_eq_bind, Option.some_bind]
      rw [hl]
      simp only [Option.some_bind, if_true]
      rw [hcodes]
      rfl
    | false =>
      refine ⟨[(c, labels)], ?_⟩
      rw [hvs]
      simp only [Option.bind_eq_bind, Option.some_bind]
      rw [hl]
      simp only [Option.some_bind]
      rfl
  rcases mapM_isSome_of_forall _ (known_split_columns.filter (fun x => df.names.contains x))
      hforall with ⟨ncs, hncs⟩
  refine ⟨⟨ncs.flatten ++ df.cols.filter
    (fun p => !((known_split_columns.filter (fun x => df.names.contains x)).contains p.1))⟩, ?_⟩
  simp only []
  rw [hncs]
  rfl

theorem split_columns_df_passthrough (df : DF) (suffix : String) (store : Bool) (out : DF)
    (hout : split_columns_df df suffix store = some out) :
    ∀ p ∈ df.cols, p.1 ∉ known_split_columns → p ∈ out.cols := by
  intro p hp hpk
  unfold split_columns_df at hout
  simp only [] at hout
  cases hmapm : (known_split_columns.filter (fun x => df.names.contains x)).mapM
      (fun c => do
        let vs ← df.getCol c
        let labels ← mapCells splitLabel vs
        if store then do
          let codes ← mapCells splitCode vs
          pure [(c, labels), (c ++ suffix, codes)]
        else
          pure [(c, labels)]) with
  | none => rw [hmapm] at hout; cases hout
  | some ncs =>
    rw [hmapm] at hout
    have hout2 : out = ⟨ncs.flatten ++ df.cols.filter
        (fun q => !((known_split_columns.filter (fun x => df.names.contains x)).contains q.1))⟩ := by
      cases hout
      rfl
    subst hout2
    refine List.mem_append.mpr (Or.inr ?_)
    refine List.mem_filter.mpr ⟨hp, ?_⟩
    have hnm : p.1 ∉ known_split_columns ∨ p.1 ∉ df.names := Or.inl hpk
    simpa using hnm

/-- **C7 (counterexample).**  The claim says normalization succeeds on
any wide table regardless of which dimension columns are present; but
`process_df` unconditionally drops the `"Time Period"` column, so a wide
table without that dimension column (here: one `Sex` dimension column
and one year column) makes the drop raise `KeyError` instead of
succeeding. -/
theorem claim7_missing_time_period_counterexample :
    ("Time Period" ∉ (DF.mk [("Sex", [some "M:Male"]), ("2014", [some "1"])]).names) ∧
    process_df ⟨[("Sex", [some "M:Male"]), ("2014", [some "1"])]⟩ = none := by
  constructor
  · decide
  · rfl

/-- **C7 (amended).**  `process_df` succeeds on any wide table that
contains a `"Time Period"` column (which it unconditionally drops —
`KeyError` otherwise) and whose known splittable columns hold no missing
cells; beyond that membership test nothing is assumed about which
dimension columns are present, and every column not in the known
splittable set passes through the splitting step unchanged. -/
theorem claim7_process_df_total_and_passthrough (df : DF) (suffix : String) (store : Bool) :
    ("Time Period" ∈ df.names →
      (∀ c ∈ known_split_columns, ∀ vs, df.getCol c = some vs → ∀ x ∈ vs, x ≠ none) →
      ∃ out, process_df df suffix store = some out) ∧
    (∀ out, split_columns_df df suffix store = some out →
      ∀ p ∈ df.cols, p.1 ∉ known_split_columns → p ∈ out.cols) := by
  constructor
  · intro htp h
    have hdrop : dropColumn df "Time Period" = some ⟨df.cols.filter (fun p => p.1 ≠ "Time Period")⟩ := by
      unfold dropColumn
      rw [if_pos (by simpa using htp)]
    have h2 : ∀ c ∈ known_split_columns, ∀ vs,
        (DF.mk (df.cols.filter (fun p => p.1 ≠ "Time Period"))).getCol c = some vs →
        ∀ x ∈ vs, x ≠ none := by
      intro c hck vs hvs
      by_cases hct : c = "Time Period"
      · rw [hct, getCol_dropColumn_self hdrop] at hvs
        cases hvs
      · rw [getCol_dropColumn hdrop c hct] at hvs
        exact h c hck vs hvs
    rcases split_columns_df_total ⟨df.cols.filter (fun p => p.1 ≠ "Time Period")⟩
        suffix store h2 with ⟨sp, hsp⟩
    refine ⟨filterByValue (expand_time_columns_df sp "Time Period" "Value") "Value", ?_⟩
    unfold process_df
    rw [hdrop]
    simp only [ne_eq, decide_not] at hsp
    simp [hsp]
  · exact split_columns_df_passthrough df suffix store

/-- Witness for C7 (amended): a frame with `Time Period`, a splittable
`Sex` column, an unknown `Foo` column and a year column normalizes
successfully, and `Foo` passes through the splitting step unchanged. -/
theorem claim7_witness :
    ("Time Period" ∈ (DF.mk [("Time Period", [some "t"]), ("Sex", [some "M:Male"]),
        ("Foo", [some "x"]), ("2014", [some "1"])]).names) ∧
    (∃ out, process_df ⟨[("Time Period", [some "t"]), ("Sex", [some "M:Male"]),
        ("Foo", [some "x"]), ("2014", [some "1"])]⟩ = some out) ∧
    (∀ out, split_columns_df ⟨[("Time Period", [some "t"]), ("Sex", [some "M:Male"]),
        ("Foo", [some "x"]), ("2014", [some "1"])]⟩ " code" false = some out →
      ("Foo", [some "x"]) ∈ out.cols) := by
  refine ⟨by decide, ?_, ?_⟩
  · exact (claim7_process_df_total_and_passthrough
      ⟨[("Time Period", [some "t"]), ("Sex", [some "M:Male"]),
        ("Foo", [some "x"]), ("2014", [some "1"])]⟩ " code" false).1 (by decide) (by decide)
  · intro out hout
    exact (claim7_process_df_total_and_passthrough
      ⟨[("Time Period", [some "t"]), ("Sex", [some "M:Male"]),
        ("Foo", [some "x"]), ("2014", [some "1"])]⟩ " code" false).2 out hout
      ("Foo", [some "x"]) (by decide) (by decide)

/-! ## Wide-to-long expansion counts (C4) -/

theorem map_sum_const {α : Type} (g : α → Nat) (n : Nat) :
    ∀ l : List α, (∀ x ∈ l, g x = n) → (l.map g).sum = n * l.length := by
  intro l
  induction l with
  | nil => simp
  | cons a t ih =>
    intro h
    simp only [List.map_cons, List.sum_cons, List.length_cons]
    rw [h a (List.mem_cons_self a t), ih (fun x hx => h x (List.mem_cons_of_mem a hx))]
    ring

theorem nrows_const {cols : List (String × List Cell)} {m : Nat}
    (h : ∀ p ∈ cols, p.2.length = m) (hne : cols ≠ []) : (DF.mk cols).nrows = m := by
  unfold DF.nrows
  induction cols with
  | nil => exact absurd rfl hne
  | cons a t ih =>
    simp only [List.map_cons, List.foldr_cons]
    rw [h a (List.mem_cons_self a t)]
    cases t with
    | nil => simp
    | cons b t2 =>
      rw [ih (fun p hp => h p (List.mem_cons_of_mem a hp)) (by simp)]
      simp

theorem find?_name_of_mem {L : List (String × List Cell)} {c : String}
    (h : c ∈ L.map Prod.fst) :
    ∃ q, L.find? (fun z => z.1 = c) = some q ∧ q ∈ L ∧ q.1 = c := by
  have hs : (L.find? (fun z => z.1 = c)).isSome := by
    rcases List.mem_map.mp h with ⟨p, hp, rfl⟩
    exact List.find?_isSome.mpr ⟨p, hp, by simp⟩
  rcases Option.isSome_iff_exists.mp hs with ⟨q, hq⟩
  refine ⟨q, hq, List.mem_of_find?_eq_some hq, ?_⟩
  have := List.find?_some hq
  simpa using this

theorem find?_name_of_not_mem {L : List (String × List Cell)} {c : String}
    (h : c ∉ L.map Prod.fst) : L.find? (fun z => z.1 = c) = none := by
  rw [List.find?_eq_none]
  intro z hz hzc
  exact h (List.mem_map.mpr ⟨z, hz, by simpa using hzc⟩)

theorem getCol_block_tc {copyCols : List (String × List Cell)} {tc : String}
    (htc : tc ∉ copyCols.map Prod.fst) (r v : List Cell) (vc : String) :
    (DF.mk (copyCols ++ [(tc, r), (vc, v)])).getCol tc = some r := by
  unfold DF.getCol
  rw [List.find?_append, find?_name_of_not_mem htc]
  simp [List.find?]

theorem getCol_block_vc {copyCols : List (String × List Cell)} {tc vc : String}
    (hvc : vc ∉ copyCols.map Prod.fst) (htv : tc ≠ vc) (r v : List Cell) :
    (DF.mk (copyCols ++ [(tc, r), (vc, v)])).getCol vc = some v := by
  unfold DF.getCol
  rw [List.find?_append, find?_name_of_not_mem hvc]
  simp only [Option.none_or]
  simp [List.find?, htv]

theorem getCol_block_copy {copyCols : List (String × List Cell)} {c : String}
    (hc : c ∈ copyCols.map Prod.fst) (tc vc : String) (r v : List Cell) :
    ∃ q, copyCols.find? (fun z => z.1 = c) = some q ∧ q ∈ copyCols ∧ q.1 = c ∧
      (DF.mk (copyCols ++ [(tc, r), (vc, v)])).getCol c = some q.2 := by
  rcases find?_name_of_mem hc with ⟨q, hq, hqm, hq1⟩
  refine ⟨q, hq, hqm, hq1, ?_⟩
  unfold DF.getCol
  rw [List.find?_append, hq]
  rfl

theorem dfAppend_step (A copyCols : List (String × List Cell)) (ts VS r v : List Cell)
    (tc vc : String)
    (hA : A.map Prod.fst = copyCols.map Prod.fst)
    (htc : tc ∉ copyCols.map Prod.fst) (hvc : vc ∉ copyCols.map Prod.fst) (htv : tc ≠ vc) :
    dfAppend ⟨A ++ [(tc, ts), (vc, VS)]⟩ ⟨copyCols ++ [(tc, r), (vc, v)]⟩ =
      ⟨A.map (fun q => (q.1, q.2 ++
          ((copyCols.find? (fun z => z.1 = q.1)).map Prod.snd).getD [])) ++
        [(tc, ts ++ r), (vc, VS ++ v)]⟩ := by
  have hanames : (DF.mk (A ++ [(tc, ts), (vc, VS)])).names =
      copyCols.map Prod.fst ++ [tc, vc] := by
    simp [DF.names, hA]
  unfold dfAppend
  simp only []
  congr 1
  have hbnew : ((DF.mk (copyCols ++ [(tc, r), (vc, v)])).cols.filter
      (fun z => !((DF.mk (A ++ [(tc, ts), (vc, VS)])).names.contains z.1))) = [] := by
    rw [List.filter_eq_nil_iff]
    intro z hz
    rw [hanames]
    have hzin : z.1 ∈ copyCols.map Prod.fst ++ [tc, vc] := by
      rcases List.mem_append.mp hz with h | h
      · exact List.mem_append.mpr (Or.inl (List.mem_map.mpr ⟨z, h, rfl⟩))
      · rcases List.mem_cons.mp h with h2 | h2
        · rw [h2]; simp
        · rcases List.mem_cons.mp h2 with h3 | h3
          · rw [h3]; simp
          · cases h3
    simp [hzin]
  rw [hbnew]
  simp only [List.map_nil, List.append_nil]
  rw [List.map_append]
  congr 1
  · refine List.map_congr_left (fun q hq => ?_)
    have hq1 : q.1 ∈ copyCols.map Prod.fst := hA ▸ List.mem_map.mpr ⟨q, hq, rfl⟩
    rcases getCol_block_copy hq1 tc vc r v with ⟨w, hw, _, _, hget⟩
    simp only [hget, hw]
    rfl
  · have hgtc := getCol_block_tc htc r v vc
    have hgvc := getCol_block_vc hvc htv r v
    simp only [List.map_cons, List.map_nil, hgtc, hgvc]

/-- Invariant of the year-column fold of `expand_time_columns_df`: the
accumulated frame keeps one column per copy column (growing by `n` rows
per processed year column), a time column, and a value column holding
the concatenation of the processed year columns' cells. -/
theorem expand_fold_invariant (tc vc : String) (copyCols : List (String × List Cell))
    (n N : Nat)
    (hcwf : ∀ q ∈ copyCols, q.2.length = n)
    (htc : tc ∉ copyCols.map Prod.fst)
    (hvc : vc ∉ copyCols.map Prod.fst)
    (htv : tc ≠ vc) (hN : N = n) :
    ∀ (ycl A : List (String × List Cell)) (ts VS : List Cell) (j : Nat),
    (∀ q ∈ ycl, q.2.length = n) →
    A.map Prod.fst = copyCols.map Prod.fst →
    (∀ q ∈ A, q.2.length = n * j) →
    ts.length = n * j → VS.length = n * j →
    ∃ A2 ts2,
      ycl.foldl (fun acc p => dfAppend acc (dfSetCol (dfSetCol ⟨copyCols⟩ tc
          (List.replicate N (some p.1))) vc p.2)) ⟨A ++ [(tc, ts), (vc, VS)]⟩ =
        ⟨A2 ++ [(tc, ts2), (vc, VS ++ (ycl.map Prod.snd).flatten)]⟩ ∧
      A2.map Prod.fst = copyCols.map Prod.fst ∧
      (∀ q ∈ A2, q.2.length = n * (j + ycl.length)) ∧
      ts2.length = n * (j + ycl.length) := by
  intro ycl
  induction ycl with
  | nil =>
    intro A ts VS j _ hAf hAl hts hVS
    exact ⟨A, ts, by simp, hAf, by simpa using hAl, by simpa using hts⟩
  | cons p ycl' ih =>
    intro A ts VS j hycl hAf hAl hts hVS
    have hcond1 : ¬ ((DF.mk copyCols).names.contains tc = true) := by
      intro h
      exact htc (by simpa [DF.names] using h)
    have h1 : dfSetCol ⟨copyCols⟩ tc (List.replicate N (some p.1)) =
        ⟨copyCols ++ [(tc, List.replicate N (some p.1))]⟩ := by
      unfold dfSetCol
      rw [if_neg hcond1]
    have hcond2 : ¬ ((DF.mk (copyCols ++ [(tc, List.replicate N (some p.1))])).names.contains
        vc = true) := by
      intro h
      have h' : vc ∈ copyCols.map Prod.fst ++ [tc] := by
        simpa [DF.names] using h
      rcases List.mem_append.mp h' with hh | hh
      · exact hvc hh
      · have hvt : vc = tc := by simpa using hh
        exact htv hvt.symm
    have h2 : dfSetCol ⟨copyCols ++ [(tc, List.replicate N (some p.1))]⟩ vc p.2 =
        ⟨copyCols ++ [(tc, List.replicate N (some p.1)), (vc, p.2)]⟩ := by
      unfold dfSetCol
      rw [if_neg hcond2]
      simp
    rw [List.foldl_cons, h1, h2,
      dfAppend_step A copyCols ts VS (List.replicate N (some p.1)) p.2 tc vc hAf htc hvc htv]
    have ob1 : ∀ q ∈ A.map (fun q => (q.1, q.2 ++
        ((copyCols.find? (fun z => z.1 = q.1)).map Prod.snd).getD [])),
        q.2.length = n * (j + 1) := by
      intro q hq
      rcases List.mem_map.mp hq with ⟨w, hw, rfl⟩
      have hw1 : w.1 ∈ copyCols.map Prod.fst := hAf ▸ List.mem_map.mpr ⟨w, hw, rfl⟩
      rcases find?_name_of_mem hw1 with ⟨q2, hq2, hq2m, _⟩
      simp [hq2, List.length_append, hAl w hw, hcwf q2 hq2m, Nat.mul_succ]
    have ob2 : (ts ++ List.replicate N (some p.1)).length = n * (j + 1) := by
      simp [List.length_append, hts, hN, Nat.mul_succ]
    have ob3 : (VS ++ p.2).length = n * (j + 1) := by
      simp [List.length_append, hVS, hycl p (List.mem_cons_self p ycl'), Nat.mul_succ]
    rcases ih (A.map (fun q => (q.1, q.2 ++
        ((copyCols.find? (fun z => z.1 = q.1)).map Prod.snd).getD [])))
      (ts ++ List.replicate N (some p.1)) (VS ++ p.2) (j + 1)
      (fun q hq => hycl q (List.mem_cons_of_mem p hq))
      (by rw [List.map_map]; exact hAf) ob1 ob2 ob3 with ⟨A2, ts2, heq, hA2f, hA2l, hts2⟩
    refine ⟨A2, ts2, ?_, hA2f, ?_, ?_⟩
    · rw [heq]
      simp [List.append_assoc]
    · intro q hq
      simp only [List.length_cons]
      rw [hA2l q hq]
      ring
    · simp only [List.length_cons]
      rw [hts2]
      ring

theorem zip_filter_snd_length : ∀ (vs : List Cell) (mask : List Bool),
    vs.length = mask.length →
    ((vs.zip mask).filter (fun q => q.2)).length = mask.countP id
  | [], [], _ => rfl
  | [], _ :: _, h => by cases h
  | _ :: _, [], h => by cases h
  | x :: xs, b :: bs, h => by
    have ih := zip_filter_snd_length xs bs (by simpa using h)
    cases b with
    | true => simp [List.zip_cons_cons, List.filter_cons, List.countP_cons, ih, id]
    | false => simp [List.zip_cons_cons, List.filter_cons, List.countP_cons, ih, id]

/-- **C4.**  For a wide table of `K` well-formed dimension-combination
rows and `Y` year columns (digit-named), wide-to-long expansion produces
exactly `K × Y` candidate rows, and the value filter of `process_df`
then keeps exactly one row per non-missing, non-blank source cell of the
year columns — hence at most `K × Y` rows. -/
theorem claim4_expand_and_filter_counts (df : DF) (n : Nat) (tc vc : String)
    (hwf : ∀ p ∈ df.cols, p.2.length = n)
    (htc : tc ∉ df.names) (hvc : vc ∉ df.names) (htv : tc ≠ vc) :
    (expand_time_columns_df df tc vc).nrows =
      n * df.cols.countP (fun p => isYearName p.1) ∧
    (filterByValue (expand_time_columns_df df tc vc) vc).nrows = nonEmptyCellCount df ∧
    nonEmptyCellCount df ≤ n * df.cols.countP (fun p => isYearName p.1) := by
  have hcwf : ∀ q ∈ df.cols.filter (fun p => !(isYearName p.1)), q.2.length = n :=
    fun q hq => hwf q (List.mem_of_mem_filter hq)
  have hycf : ∀ q ∈ df.cols.filter (fun p => isYearName p.1), q.2.length = n :=
    fun q hq => hwf q (List.mem_of_mem_filter hq)
  have hsub : ∀ c : String, c ∉ df.names →
      c ∉ (df.cols.filter (fun p => !(isYearName p.1))).map Prod.fst := by
    intro c hc hmem
    rcases List.mem_map.mp hmem with ⟨q, hq, rfl⟩
    exact hc (List.mem_map.mpr ⟨q, List.mem_of_mem_filter hq, rfl⟩)
  have hN : df.cols = [] ∨ df.nrows = n := by
    cases hc : df.cols with
    | nil => exact Or.inl rfl
    | cons a t =>
      right
      have : df = ⟨a :: t⟩ := by cases df; simpa using hc
      rw [this] at hwf ⊢
      exact nrows_const hwf (by simp)
  have hY : (df.cols.filter (fun p => isYearName p.1)).length =
      df.cols.countP (fun p => isYearName p.1) := (List.countP_eq_length_filter _ _).symm
  -- run the fold invariant from the empty base frame
  have hbase := fun hNn => expand_fold_invariant tc vc
    (df.cols.filter (fun p => !(isYearName p.1))) n df.nrows hcwf
    (hsub tc htc) (hsub vc hvc) htv hNn
    (df.cols.filter (fun p => isYearName p.1))
    ((df.cols.filter (fun p => !(isYearName p.1))).map (fun p => (p.1, ([] : List Cell))))
    [] [] 0 hycf
    (by rw [List.map_map]; rfl)
    (by intro q hq; rcases List.mem_map.mp hq with ⟨w, _, rfl⟩; simp)
    (by simp) (by simp)
  rcases hN with hnil | hNn
  · -- no columns at all: everything is zero
    have hc0 : df = ⟨[]⟩ := by cases df; simpa using hnil
    subst hc0
    constructor
    · rfl
    · constructor
      · rfl
      · simp [nonEmptyCellCount]
  · rcases hbase hNn with ⟨A2, ts2, heq, hA2f, hA2l, hts2⟩
    have hexp : expand_time_columns_df df tc vc =
        ⟨A2 ++ [(tc, ts2), (vc, [] ++ ((df.cols.filter (fun p => isYearName p.1)).map
          Prod.snd).flatten)]⟩ := by
      unfold expand_time_columns_df
      simp only []
      exact heq
    have hVSlen : (((df.cols.filter (fun p => isYearName p.1)).map Prod.snd).flatten).length =
        n * df.cols.countP (fun p => isYearName p.1) := by
      rw [List.length_flatten, List.map_map]
      rw [map_sum_const (List.length ∘ Prod.snd) n _ (fun q hq => hycf q hq)]
      rw [hY]
    have hall : ∀ q ∈ A2 ++ [(tc, ts2), (vc, [] ++ ((df.cols.filter
        (fun p => isYearName p.1)).map Prod.snd).flatten)],
        q.2.length = n * df.cols.countP (fun p => isYearName p.1) := by
      intro q hq
      rcases List.mem_append.mp hq with h | h
      · rw [hA2l q h]
        rw [hY]
        ring_nf
      · rcases List.mem_cons.mp h with h2 | h2
        · rw [h2]
          rw [hts2, hY]
          ring_nf
        · rcases List.mem_cons.mp h2 with h3 | h3
          · rw [h3]
            simpa using hVSlen
          · cases h3
    refine ⟨?_, ?_, ?_⟩
    · rw [hexp]
      exact nrows_const hall (by simp)
    · -- the filtered row count equals the kept-cell count
      rw [hexp]
      have hgetvc : (DF.mk (A2 ++ [(tc, ts2), (vc, [] ++ ((df.cols.filter
          (fun p => isYearName p.1)).map Prod.snd).flatten)])).getCol vc =
          some ([] ++ ((df.cols.filter (fun p => isYearName p.1)).map Prod.snd).flatten) := by
        unfold DF.getCol
        rw [List.find?_append, find?_name_of_not_mem (hA2f ▸ hsub vc hvc)]
        simp only [Option.none_or]
        simp [List.find?, htv]
      unfold filterByValue
      simp only [hgetvc, Option.getD_some]
      set VSf := [] ++ ((df.cols.filter (fun p => isYearName p.1)).map Prod.snd).flatten with hVSf
      have hmf : ∀ q ∈ A2 ++ [(tc, ts2), (vc, VSf)],
          (maskFilter (VSf.map keepCell) q.2).length = VSf.countP keepCell := by
        intro q hq
        have hlen : q.2.length = (VSf.map keepCell).length := by
          rw [List.length_map]
          rw [hall q hq]
          rw [hVSf]
          simpa using hVSlen.symm
        clear hq
        rw [maskFilter, List.length_map]
        rw [zip_filter_snd_length q.2 (VSf.map keepCell) hlen]
        rw [List.countP_map]
        rfl
      have hcount : VSf.countP keepCell = nonEmptyCellCount df := by
        rw [hVSf, List.nil_append, List.countP_flatten, List.map_map]
        unfold nonEmptyCellCount
        rfl
      refine Eq.trans (nrows_const ?_ (by simp)) hcount
      intro q hq
      rcases List.mem_map.mp hq with ⟨w, hw, rfl⟩
      exact hmf w hw
    · -- the kept-cell count is at most K * Y
      have : nonEmptyCellCount df ≤ (((df.cols.filter (fun p => isYearName p.1)).map
          Prod.snd).flatten).length := by
        unfold nonEmptyCellCount
        rw [List.length_flatten, List.map_map]
        refine List.sum_le_sum (fun q hq => ?_)
        simpa using List.countP_le_length keepCell
      rw [hVSlen] at this
      exact this

/-- Witness for C4: two dimension rows and two year columns expand to
four candidate rows, of which the two non-missing, non-blank cells
survive the value filter. -/
theorem claim4_witness :
    (∀ p ∈ (DF.mk [("Sex", [some "a", some "b"]), ("2014", [some "1", none]),
        ("2015", [some " ", some "4"])]).cols, p.2.length = 2) ∧
    (expand_time_columns_df ⟨[("Sex", [some "a", some "b"]), ("2014", [some "1", none]),
        ("2015", [some " ", some "4"])]⟩ "Time Period" "Value").nrows = 2 * 2 ∧
    (filterByValue (expand_time_columns_df ⟨[("Sex", [some "a", some "b"]),
        ("2014", [some "1", none]), ("2015", [some " ", some "4"])]⟩
        "Time Period" "Value") "Value").nrows = 2 ∧
    nonEmptyCellCount ⟨[("Sex", [some "a", some "b"]), ("2014", [some "1", none]),
        ("2015", [some " ", some "4"])]⟩ = 2 := by
  have h := claim4_expand_and_filter_counts
    ⟨[("Sex", [some "a", some "b"]), ("2014", [some "1", none]),
      ("2015", [some " ", some "4"])]⟩
    2 "Time Period" "Value" (by decide) (by decide) (by decide) (by decide)
  refine ⟨by decide, ?_, ?_, by decide⟩
  · have h1 := h.1
    rwa [show (DF.mk [("Sex", [some "a", some "b"]), ("2014", [some "1", none]),
        ("2015", [some " ", some "4"])]).cols.countP (fun p => isYearName p.1) = 2
      from by decide] at h1
  · have h2 := h.2.1
    rwa [show nonEmptyCellCount ⟨[("Sex", [some "a", some "b"]), ("2014", [some "1", none]),
        ("2015", [some " ", some "4"])]⟩ = 2 from by decide] at h2

/-! ## The per-country assembler (C9, C10) -/

theorem yearsDesc_sorted (tps : List (Nat × Nat)) :
    List.Pairwise (fun a b : Nat => b ≤ a) (yearsDesc tps) := by
  haveI h1 : IsTotal Nat (fun a b => b ≤ a) := ⟨fun a b => le_total b a⟩
  haveI h2 : IsTrans Nat (fun a b => b ≤ a) := ⟨fun a b c hab hbc => le_trans hbc hab⟩
  exact List.sorted_insertionSort _ _

theorem getLastD_mem : ∀ (l : List Nat) (d : Nat), l ≠ [] → l.getLastD d ∈ l
  | [], _, h => absurd rfl h
  | a :: t, d, _ => by
    rw [List.getLastD_cons]
    cases t with
    | nil => simp [List.getLastD]
    | cons b t2 => exact List.mem_cons_of_mem a (getLastD_mem (b :: t2) a (by simp))

theorem getLastD_le_of_sorted :
    ∀ (l : List Nat) (d : Nat), List.Pairwise (fun a b : Nat => b ≤ a) l →
    ∀ z ∈ l, l.getLastD d ≤ z
  | [], _, _, z, hz => absurd hz (List.not_mem_nil z)
  | a :: t, d, h, z, hz => by
    rw [List.getLastD_cons]
    rcases List.mem_cons.mp hz with hza | hz2
    · cases t with
      | nil => rw [hza]; simp [List.getLastD]
      | cons b t2 =>
        rw [hza]
        exact (List.pairwise_cons.mp h).1 _ (getLastD_mem (b :: t2) a (by simp))
    · cases t with
      | nil => cases hz2
      | cons b t2 => exact getLastD_le_of_sorted (b :: t2) a (List.pairwise_cons.mp h).2 z hz2

theorem head_ge_of_sorted {y : Nat} {t : List Nat}
    (h : List.Pairwise (fun a b : Nat => b ≤ a) (y :: t)) : ∀ z ∈ y :: t, z ≤ y := by
  intro z hz
  rcases List.mem_cons.mp hz with rfl | hz2
  · exact le_refl z
  · exact (List.pairwise_cons.mp h).1 z hz2

/-- Effect of one endpoint iteration on the loop state: the observed
years of the endpoint end up between the updated `earliest_year` and
`latest_year`, the bounds only widen, the updated bounds are either
unchanged or observed years themselves, and the resources only change
when the endpoint reported at least one year. -/
theorem process_endpoint_state (env : Env) (merge : Bool) (folder iso2 cn : String)
    (st st' : LoopState) (entry : String × String × String × String)
    (h : process_endpoint env merge folder iso2 cn st entry = .ok st') :
    (∀ y ∈ yearsOfEndpoint env iso2 entry,
      st'.earliest_year ≤ y ∧ y ≤ st'.latest_year) ∧
    st'.earliest_year ≤ st.earliest_year ∧ st.latest_year ≤ st'.latest_year ∧
    (st'.earliest_year = st.earliest_year ∨
      st'.earliest_year ∈ yearsOfEndpoint env iso2 entry) ∧
    (st'.latest_year = st.latest_year ∨
      st'.latest_year ∈ yearsOfEndpoint env iso2 entry) ∧
    (st'.resources = st.resources ∨ yearsOfEndpoint env iso2 entry ≠ []) := by
  unfold process_endpoint at h
  unfold yearsOfEndpoint
  simp only [] at h ⊢
  cases hls : load_safely (env.attempts (pyFormatS entry.2.2.1 iso2 ++ dataurl_suffix)) with
  | mk fo slept =>
    simp only [hls] at h ⊢
    cases fo with
    | raised isDE cause => cases h
    | looping => cases h
    | noData => cases h
    | got r =>
      have hsor := yearsDesc_sorted (timePeriodsOf (env.json r).observation)
      cases hys : yearsDesc (timePeriodsOf (env.json r).observation) with
      | nil =>
        simp only [hys] at h ⊢
        have hst : st = st' := by
          simpa using h
        subst hst
        simp
      | cons y0 ytail =>
        rw [hys] at hsor
        simp only [hys] at h ⊢
        set E := if (y0 :: ytail).getLastD 0 < st.earliest_year
          then (y0 :: ytail).getLastD 0 else st.earliest_year with hE
        set L := if y0 > st.latest_year then y0 else st.latest_year with hL
        have hEfacts : (∀ y ∈ y0 :: ytail, E ≤ y) ∧ E ≤ st.earliest_year ∧
            (E = st.earliest_year ∨ E ∈ y0 :: ytail) := by
          rw [hE]
          by_cases hlt : (y0 :: ytail).getLastD 0 < st.earliest_year
          · rw [if_pos hlt]
            exact ⟨fun y hy => getLastD_le_of_sorted _ 0 hsor y hy, le_of_lt hlt,
              Or.inr (getLastD_mem _ 0 (by simp))⟩
          · rw [if_neg hlt]
            refine ⟨fun y hy => ?_, le_refl _, Or.inl rfl⟩
            exact le_trans (not_lt.mp hlt) (getLastD_le_of_sorted _ 0 hsor y hy)
        have hLfacts : (∀ y ∈ y0 :: ytail, y ≤ L) ∧ st.latest_year ≤ L ∧
            (L = st.latest_year ∨ L ∈ y0 :: ytail) := by
          rw [hL]
          by_cases hgt : y0 > st.latest_year
          · rw [if_pos hgt]
            exact ⟨fun y hy => head_ge_of_sorted hsor y hy, le_of_lt hgt,
              Or.inr (List.mem_cons_self _ _)⟩
          · rw [if_neg hgt]
            refine ⟨fun y hy => le_trans (head_ge_of_sorted hsor y hy) (not_lt.mp hgt),
              le_refl _, Or.inl rfl⟩
        split at h
        · cases h
        · split at h
          · rw [Except.ok.injEq] at h
            subst h
            exact ⟨fun y hy => ⟨hEfacts.1 y hy, hLfacts.1 y hy⟩, hEfacts.2.1, hLfacts.2.1,
              hEfacts.2.2, hLfacts.2.2, Or.inr (by simp)⟩
          · split at h
            · cases h
            · rw [Except.ok.injEq] at h
              subst h
              exact ⟨fun y hy => ⟨hEfacts.1 y hy, hLfacts.1 y hy⟩, hEfacts.2.1, hLfacts.2.1,
                hEfacts.2.2, hLfacts.2.2, Or.inr (by simp)⟩

/-- The loop-level cumulative version of `process_endpoint_state`. -/
theorem endpointLoop_state (env : Env) (merge : Bool) (folder iso2 cn : String) :
    ∀ (eml : List (String × String × String × String)) (st st' : LoopState),
    endpointLoop env merge folder iso2 cn eml st = .ok st' →
    (∀ y ∈ (eml.map (yearsOfEndpoint env iso2)).flatten,
      st'.earliest_year ≤ y ∧ y ≤ st'.latest_year) ∧
    st'.earliest_year ≤ st.earliest_year ∧ st.latest_year ≤ st'.latest_year ∧
    (st'.earliest_year = st.earliest_year ∨
      st'.earliest_year ∈ (eml.map (yearsOfEndpoint env iso2)).flatten) ∧
    (st'.latest_year = st.latest_year ∨
      st'.latest_year ∈ (eml.map (yearsOfEndpoint env iso2)).flatten) ∧
    (st'.resources = st.resources ∨ (eml.map (yearsOfEndpoint env iso2)).flatten ≠ [])
  | [], st, st', h => by
    have hok : (Except.ok st : Except PyFailure LoopState) = Except.ok st' := h
    have hst : st = st' := Except.ok.inj hok
    subst hst
    simp
  | e :: rest, st, st', h => by
    rw [endpointLoop, List.foldlM_cons] at h
    cases hpe : process_endpoint env merge folder iso2 cn st e with
    | error er =>
      rw [hpe] at h
      cases h
    | ok st1 =>
      rw [hpe] at h
      have hrest : endpointLoop env merge folder iso2 cn rest st1 = .ok st' := h
      obtain ⟨ih1, ih2, ih3, ih4, ih5, ih6⟩ :=
        endpointLoop_state env merge folder iso2 cn rest st1 st' hrest
      obtain ⟨p1, p2, p3, p4, p5, p6⟩ :=
        process_endpoint_state env merge folder iso2 cn st st1 e hpe
      simp only [List.map_cons, List.flatten_cons]
      refine ⟨?_, le_trans ih2 p2, le_trans p3 ih3, ?_, ?_, ?_⟩
      · intro y hy
        rcases List.mem_append.mp hy with hy1 | hy2
        · exact ⟨le_trans ih2 (p1 y hy1).1, le_trans (p1 y hy1).2 ih3⟩
        · exact ih1 y hy2
      · rcases ih4 with he | he
        · rw [he]
          rcases p4 with hp | hp
          · exact Or.inl hp
          · exact Or.inr (List.mem_append.mpr (Or.inl hp))
        · exact Or.inr (List.mem_append.mpr (Or.inr he))
      · rcases ih5 with he | he
        · rw [he]
          rcases p5 with hp | hp
          · exact Or.inl hp
          · exact Or.inr (List.mem_append.mpr (Or.inl hp))
        · exact Or.inr (List.mem_append.mpr (Or.inr he))
      · rcases ih6 with hr | hr
        · rw [hr]
          rcases p6 with hp | hp
          · exact Or.inl hp
          · refine Or.inr (fun hnil => hp ?_)
            rcases List.append_eq_nil.mp hnil with ⟨h1, _⟩
            exact h1
        · refine Or.inr (fun hnil => hr ?_)
          rcases List.append_eq_nil.mp hnil with ⟨_, h2⟩
          exact h2

/-- **C9 (counterexample).**  The claim says a country whose name
matches the non-country prefix `WB:` is skipped (returns `(None, None)`);
the code checks the exact four-character slice `"WB: "` (with a space),
so the name `"WB:NoSpace"` — which does start with `WB:` — produces a
full dataset/showcase pair instead of being skipped. -/
theorem claim9_wb_prefix_counterexample :
    ("WB:NoSpace").take 3 = "WB:" ∧
    generate_dataset_and_showcase envFix ⟨"AR", "WB:NoSpace"⟩ emFix "f" false =
      .ok (some dsWB, some shWB) ∧
    (Except.ok (some dsWB, some shWB) :
      Except PyFailure (Option HDataset × Option HShowcase)) ≠ .ok (none, none) := by
  refine ⟨by decide, by rfl, ?_⟩
  intro hcontra
  simp at hcontra

/-- **C9 (amended).**  `generate_dataset_and_showcase` returns
`(None, None)` exactly when: the country name's exact slices match the
non-country prefix list (`countryname[:4]` one of `"WB: "`, `"SDG:"`,
`"MDG:"`, `"UIS:"`, `"EFA:"`; `[:5]` one of `"GEMR:"`, `"AIMS:"`; `[:7]`
one of `"UNICEF:"`, `"UNESCO:"`); or the ISO3 code resolves neither
directly nor by fuzzy name match; or the catalog rejects the country
location (`HDXError` from `add_country_location`); or the endpoint loop
completes normally with zero resources.  When a dataset is returned, its
year range is `[earliest, latest]` over all years observed across the
endpoints (given that observed years lie strictly between 0 and the
10000/0 initializers). -/
theorem claim9_skip_cases_and_year_range (env : Env) (cd : CountryData)
    (em : List (String × String × String × String)) (folder : String) (merge : Bool)
    (hyb : ∀ y ∈ observedYears env cd.id em, 0 < y ∧ y < 10000) :
    (generate_dataset_and_showcase env cd em folder merge = .ok (none, none) ↔
      nonCountryName cd.countryname = true ∨
      resolveIso3 env cd.id cd.countryname = none ∨
      (∃ i, resolveIso3 env cd.id cd.countryname = some i ∧
        env.addCountryLocationOk i = false) ∨
      (∃ st, endpointLoop env merge folder cd.id cd.countryname (sortByKey em)
          ⟨[], 10000, 0⟩ = .ok st ∧ st.resources = [])) ∧
    (∀ ds sc, generate_dataset_and_showcase env cd em folder merge = .ok (some ds, sc) →
      ∃ a b, ds.year_range = some (a, b) ∧
        a ∈ observedYears env cd.id em ∧ (∀ y ∈ observedYears env cd.id em, a ≤ y) ∧
        b ∈ observedYears env cd.id em ∧ (∀ y ∈ observedYears env cd.id em, y ≤ b)) := by
  constructor
  · constructor
    · intro h
      unfold generate_dataset_and_showcase at h
      simp only [] at h
      split at h
      · rename_i hpre
        exact Or.inl hpre
      · split at h
        · rename_i hiso
          exact Or.inr (Or.inl hiso)
        · rename_i iso3 hiso
          split at h
          · rename_i hadd
            split at h
            · cases h
            · rename_i st hloop
              split at h
              · rename_i hlen
                exact Or.inr (Or.inr (Or.inr ⟨st, hloop, List.length_eq_zero.mp hlen⟩))
              · simp at h
          · rename_i hadd
            exact Or.inr (Or.inr (Or.inl ⟨iso3, hiso, by simpa using hadd⟩))
    · intro h
      unfold generate_dataset_and_showcase
      simp only []
      split
      · rfl
      · rename_i hpre
        rcases h with h1 | h2 | h3 | h4
        · rw [h1] at hpre
          exact absurd rfl hpre
        · rw [h2]
        · rcases h3 with ⟨i, hi, hadd⟩
          rw [hi]
          simp only []
          rw [if_neg (by simp [hadd])]
        · rcases h4 with ⟨st, hloop, hres⟩
          cases hiso : resolveIso3 env cd.id cd.countryname with
          | none => rfl
          | some i =>
            simp only []
            split
            · rw [hloop]
              simp only []
              rw [if_pos (by simp [hres])]
            · rfl
  · intro ds sc h
    unfold generate_dataset_and_showcase at h
    simp only [] at h
    split at h
    · simp at h
    · split at h
      · simp at h
      · split at h
        · split at h
          · cases h
          · rename_i st hloop
            split at h
            · simp at h
            · rename_i hlen
              rw [Except.ok.injEq, Prod.mk.injEq] at h
              obtain ⟨h1, _⟩ := h
              rw [Option.some.injEq] at h1
              obtain ⟨e1, e2, e3, e4, e5, e6⟩ := endpointLoop_state env merge folder
                cd.id cd.countryname (sortByKey em) ⟨[], 10000, 0⟩ st hloop
              have hoys : (List.map (yearsOfEndpoint env cd.id) (sortByKey em)).flatten =
                  observedYears env cd.id em := rfl
              rw [hoys] at e1 e4 e5 e6
              have hne : observedYears env cd.id em ≠ [] := by
                rcases e6 with hr | hr
                · exfalso
                  apply hlen
                  rw [hr]
                  rfl
                · exact hr
              rcases List.exists_mem_of_ne_nil _ hne with ⟨y0, hy0⟩
              have ha : st.earliest_year ∈ observedYears env cd.id em := by
                rcases e4 with he | he
                · exfalso
                  have h10 : (10000 : Nat) ≤ y0 := by
                    have h1 := (e1 y0 hy0).1
                    rw [he] at h1
                    exact h1
                  have hlt := (hyb y0 hy0).2
                  omega
                · exact he
              have hb : st.latest_year ∈ observedYears env cd.id em := by
                rcases e5 with he | he
                · exfalso
                  have h0 : y0 ≤ 0 := by
                    have h1 := (e1 y0 hy0).2
                    rw [he] at h1
                    exact h1
                  have hgt := (hyb y0 hy0).1
                  omega
                · exact he
              refine ⟨st.earliest_year, st.latest_year, ?_, ha,
                fun y hy => (e1 y hy).1, hb, fun y hy => (e1 y hy).2⟩
              rw [← h1]
        · simp at h

/-- Witness for C9 (amended): the fixture country resolves, its single
endpoint reports the year 2014, and the returned dataset (split mode)
carries year range bounds that are observed years bounding all observed
years. -/
theorem claim9_witness :
    (∀ y ∈ observedYears envFix "AR" emFix, 0 < y ∧ y < 10000) ∧
    (∀ ds sc, generate_dataset_and_showcase envFix ⟨"AR", "Argentina"⟩ emFix "f" false =
        .ok (some ds, sc) →
      ∃ a b, ds.year_range = some (a, b) ∧
        a ∈ observedYears envFix "AR" emFix ∧
        (∀ y ∈ observedYears envFix "AR" emFix, a ≤ y) ∧
        b ∈ observedYears envFix "AR" emFix ∧
        (∀ y ∈ observedYears envFix "AR" emFix, y ≤ b)) :=
  ⟨by decide,
    (claim9_skip_cases_and_year_range envFix ⟨"AR", "Argentina"⟩ emFix "f" false
      (by decide)).2⟩

/-- **C10.**  Whenever `generate_dataset_and_showcase` returns a
non-`None` dataset it also returns a non-`None` showcase; the dataset has
at least one resource; the showcase carries the same (five) tags as the
dataset; and the showcase's name is the dataset's slugified name with
`"-showcase"` appended. -/
theorem claim10_dataset_implies_showcase (env : Env) (cd : CountryData)
    (em : List (String × String × String × String)) (folder : String) (merge : Bool)
    (ds : HDataset) (sc : Option HShowcase)
    (h : generate_dataset_and_showcase env cd em folder merge = .ok (some ds, sc)) :
    ∃ sh, sc = some sh ∧ sh.tags = ds.tags ∧ ds.tags = the_tags ∧ the_tags.length = 5 ∧
      sh.name = ds.name ++ "-showcase" ∧ ds.resources ≠ [] := by
  unfold generate_dataset_and_showcase at h
  simp only [] at h
  split at h
  · simp at h
  · split at h
    · simp at h
    · split at h
      · split at h
        · cases h
        · split at h
          · simp at h
          · rename_i st hloop hlen
            rw [Except.ok.injEq, Prod.mk.injEq] at h
            obtain ⟨h1, h2⟩ := h
            rw [Option.some.injEq] at h1
            refine ⟨_, h2.symm, ?_, ?_, rfl, ?_, ?_⟩
            · rw [← h1]
            · rw [← h1]
            · rw [← h1]
            · rw [← h1]
              intro hres
              apply hlen
              have hres2 : st.resources = [] := hres
              rw [hres2]
              rfl
      · simp at h

/-- Witness for C10 at the fixture: the dataset/showcase pair built for
Argentina. -/
theorem claim10_witness :
    generate_dataset_and_showcase envFix ⟨"AR", "Argentina"⟩ emFix "f" false =
      .ok (some dsFix, some shFix) ∧
    (∃ sh, (some shFix : Option HShowcase) = some sh ∧ sh.tags = dsFix.tags ∧
      dsFix.tags = the_tags ∧ the_tags.length = 5 ∧
      sh.name = dsFix.name ++ "-showcase" ∧ dsFix.resources ≠ []) :=
  ⟨by rfl,
    claim10_dataset_implies_showcase envFix ⟨"AR", "Argentina"⟩ emFix "f" false
      dsFix (some shFix) (by rfl)⟩

end Unesco
